import Mathlib

/-!
Verification of the in-port watch-scheduling engine
(`app/scheduler_in_port.py` together with its helpers
`app/scheduler_rules.py` and `app/scheduling_prep.py`).

Shallow embedding conventions:

* Calendar dates are modelled as `Nat` proleptic-Gregorian ordinals (the
  value of Python's `date.toordinal()`), so `date.weekday()` becomes
  `(d + 6) % 7` (ordinal 1 is a Monday) and a difference of ISO dates in
  days becomes integer subtraction.  Sorting ISO date strings of one month
  lexicographically coincides with sorting the ordinals numerically.
* The CSV files consumed by the engine are modelled as fields of a
  `SchedState` record: `data/personnel.csv` as a list of rows,
  `logs/ship_status_YYYY_MM.csv` as an optional list of (date, status)
  rows (`none` = the file is absent), `logs/holidays_YYYY_MM.csv` as the
  set of holiday ordinals of the month, and the three monthly logs
  (leave / cannot / prefer) as lists of (date, registry-id) pairs.
* Python dicts with insertion-order semantics are modelled as association
  lists (`lookupA` / `updateAssoc` below); Python sets used only through
  membership tests are modelled as lists queried with `contains`.
* Python's stable `sorted` is modelled by the stable insertion sort
  `sortedBy`; `sorted(key=k, reverse=True)` is `sortedBy` with the
  flipped key comparison, which reproduces Python's reversed-comparison,
  stability-preserving semantics.
* Python string operations `.strip()`, `.lower()` and `<` are given
  executable code-point models (`stripStr`, `lowerStr`, `strLtB`),
  because the corresponding library functions do not reduce in the
  kernel; on the ASCII/Greek data handled by this program they agree
  with Python's semantics.
-/

/-! ## Python string primitives -/

/-- Characters stripped by `str.strip()` (whitespace). -/
def isSpaceChar (c : Char) : Bool := c == ' ' || c == '\t' || c == '\n' || c == '\r'

/-- Model of Python `str.strip()`. -/
def stripStr (s : String) : String :=
  ⟨((s.data.dropWhile isSpaceChar).reverse.dropWhile isSpaceChar).reverse⟩

/-- ASCII lower-casing of one character, as `str.lower()` does on ASCII. -/
def lowerChar (c : Char) : Char :=
  if 'A' ≤ c && c ≤ 'Z' then Char.ofNat (c.toNat + 32) else c

/-- Model of Python `str.lower()`. -/
def lowerStr (s : String) : String := ⟨s.data.map lowerChar⟩

/-- Code-point lexicographic strict comparison of character lists. -/
def clLt : List Char → List Char → Bool
  | [], [] => false
  | [], _ :: _ => true
  | _ :: _, [] => false
  | a :: as, b :: bs => if a < b then true else if b < a then false else clLt as bs

/-- Model of Python string `<` (code-point lexicographic). -/
def strLtB (a b : String) : Bool := clLt a.data b.data

/-- Non-strict string comparison derived from `strLtB`. -/
def strLeB (a b : String) : Bool := strLtB a b || a == b

/-- Lexicographic `≤` on a (Nat, String) sort key, as Python compares tuples. -/
def pairLeB (x y : Nat × String) : Bool :=
  x.1 < y.1 || (x.1 == y.1 && strLeB x.2 y.2)

/-- Lexicographic `≤` on a (Nat, Nat, String) sort key. -/
def tripleLeB (x y : Nat × Nat × String) : Bool :=
  x.1 < y.1 || (x.1 == y.1 && pairLeB x.2 y.2)

/-- `≤` on `Nat` as a Bool, used to model sorting the date column. -/
def natLeB (a b : Nat) : Bool := a ≤ b

/-! ## Stable sort (model of Python `sorted`) -/

/-- Insert `x` after every already-placed element `y` with `le y x`;
the building block of a stable insertion sort. -/
def insertOrdered {α : Type} (le : α → α → Bool) (x : α) : List α → List α
  | [] => [x]
  | y :: ys => if le y x then y :: insertOrdered le x ys else x :: y :: ys

/-- Stable insertion sort: processes elements left to right, so elements
whose keys compare equal keep their original relative order - exactly the
guarantee of Python's `sorted`. -/
def sortedBy {α : Type} (le : α → α → Bool) (l : List α) : List α :=
  l.foldl (fun acc x => insertOrdered le x acc) []

/-! ## Association lists (model of Python dicts) -/

/-- Model of Python `dict.get`: first binding of the key, if any. -/
def lookupA {α β : Type} [DecidableEq α] : List (α × β) → α → Option β
  | [], _ => none
  | kv :: t, k => if kv.1 = k then some kv.2 else lookupA t k

/-- Model of Python `dict.__setitem__`: replace the first binding in place,
or append a new binding at the end (dicts keep insertion order). -/
def updateAssoc {α β : Type} [DecidableEq α] : List (α × β) → α → β → List (α × β)
  | [], k, v => [(k, v)]
  | kv :: t, k, v => if kv.1 = k then (kv.1, v) :: t else kv :: updateAssoc t k v

/-! ## Vocabulary constants (`app/constants.py`, `app/scheduler_rules.py`) -/

/-- `constants.RANKS` - the ordered rank vocabulary (lower index = more senior). -/
def RANKS : List String :=
  ["Commander", "Commander (M)",
   "Lieutenant Commander", "Lieutenant Commander (M)",
   "Lieutenant", "Lieutenant (M)", "Lieutenant (E)",
   "Ensign", "Ensign (M)", "Ensign (E)",
   "Warrant Officer", "Chief Petty Officer", "Senior Petty Officer",
   "Petty Officer", "Seaman", "Sailor"]

/-- `scheduler_rules.MAX_PER_MONTH` - monthly duty ceiling by rank. -/
def MAX_PER_MONTH : List (String × Nat) :=
  [("Commander", 4), ("Commander (M)", 4),
   ("Lieutenant Commander", 4), ("Lieutenant Commander (M)", 4),
   ("Lieutenant", 4), ("Lieutenant (M)", 4), ("Lieutenant (E)", 4),
   ("Ensign", 4), ("Ensign (M)", 4), ("Ensign (E)", 4),
   ("Warrant Officer", 4), ("Chief Petty Officer", 4),
   ("Senior Petty Officer", 4), ("Petty Officer", 5),
   ("Seaman", 6), ("Sailor", 15)]

/-- `scheduler_rules.DUTY_NEVER` - duties never scheduled. -/
def DUTY_NEVER : List String := ["Captain"]

/-- `scheduler_rules.DUTY_WEEKDAY_ONLY` - duties restricted to Mon-Fri for AF. -/
def DUTY_WEEKDAY_ONLY : List String := ["Executive Officer", "DPO"]

/-- `scheduling_prep.WATCH_TYPES` - the five in-port watch types. -/
def WATCH_TYPES : List String := ["ΑΦ", "ΥΦ", "ΥΦΜ", "ΒΥΦΜ", "ΒΥΦ"]

/-- The priority watch `"ΑΦ"`, named for use in application position. -/
def W_AF : String := "ΑΦ"

/-- The four secondary watches in the order the daily loop visits them. -/
def SECONDARY_WATCHES : List String := ["ΥΦ", "ΥΦΜ", "ΒΥΦΜ", "ΒΥΦ"]

/-! ## Calendar facts (`app/scheduler_rules.py`) -/

/-- Python `date.weekday()` on an ordinal: ordinal 1 (0001-01-01) is a Monday. -/
def pyWeekday (d : Nat) : Nat := (d + 6) % 7

/-- `scheduler_rules.is_weekend`: Saturday (5) or Sunday (6). -/
def is_weekend (d : Nat) : Bool := pyWeekday d ≥ 5

/-- `scheduler_rules.is_weekday`. -/
def is_weekday (d : Nat) : Bool := !(is_weekend d)

/-- Rows of `data/personnel.csv` (typed columns). -/
structure Person where
  registry_number : String
  name : String
  rank : String
  specialty : String
  duty : String
  primary_shift : String
deriving DecidableEq

/-- One entry of an availability pool, as built by
`scheduling_prep.day_availability` (the `duty` key is only populated for
the AF pool by `_primary_pool(af_mode=True)`; Python's missing key reads
back as `""` through `p.get("duty", "")`, modelled by defaulting it). -/
structure PoolEntry where
  registry_id : String
  name : String
  rank : String
  specialty : String
  preferred : Bool
  duty : String
deriving DecidableEq

/-- The whole month's input data visible to the engine (see module header). -/
structure SchedState where
  personnel : List Person
  ship_status : Option (List (Nat × String))
  holidays : List Nat
  leave : List (Nat × String)
  cannot : List (Nat × String)
  prefer : List (Nat × String)
deriving DecidableEq

/-- `scheduler_rules.is_holiday`: membership in the month's holiday file. -/
def is_holiday (st : SchedState) (d : Nat) : Bool := st.holidays.contains d

/-- `scheduler_in_port._is_holiday_like`: declared holiday or weekend. -/
def _is_holiday_like (st : SchedState) (d : Nat) : Bool := is_holiday st d || is_weekend d

/-- `scheduler_rules.two_day_gap_ok`: every previously assigned date must be
at least 3 calendar days away (in either direction). -/
def two_day_gap_ok (prev_assigned_dates : List Nat) (date_iso : Nat) : Bool :=
  prev_assigned_dates.all (fun s => !(((date_iso : Int) - (s : Int)).natAbs < 3))

/-! ## Availability preparation (`app/scheduling_prep.py`) -/

/-- `scheduling_prep._seniority_key` via `SENIORITY_ORDER`: index of the
stripped rank in `RANKS`, defaulting to 10000. -/
def seniorityKeyAux : List String → Nat → String → Nat
  | [], _, _ => 10000
  | r :: rs, i, k => if r = k then i else seniorityKeyAux rs (i + 1) k

/-- `scheduling_prep._seniority_key`. -/
def _seniority_key (rank : String) : Nat := seniorityKeyAux RANKS 0 (stripStr rank)

/-- The sort key `( _seniority_key(rank), name )` used for pools. -/
def availKey (p : PoolEntry) : Nat × String := (_seniority_key p.rank, p.name)

/-- The officer-rank set of `scheduling_prep.day_availability`. -/
def officer_ranks : List String :=
  ["Commander", "Commander (M)", "Lieutenant Commander", "Lieutenant Commander (M)",
   "Lieutenant", "Lieutenant (M)", "Lieutenant (E)",
   "Ensign", "Ensign (M)", "Ensign (E)"]

/-- Rank-class eligibility of `day_availability`: officers get only the
priority watch, Warrant Officers all five, everyone else the other four. -/
def eligibleWatches (rk : String) : List String :=
  if officer_ranks.contains rk then ["ΑΦ"]
  else if rk = "Warrant Officer" then ["ΑΦ", "ΥΦ", "ΥΦΜ", "ΒΥΦΜ", "ΒΥΦ"]
  else ["ΥΦ", "ΥΦΜ", "ΒΥΦΜ", "ΒΥΦ"]

/-- IDs recorded in a monthly log for one date (`_ids_on_day`). -/
def idsOnDay (recs : List (Nat × String)) (d : Nat) : List String :=
  (recs.filter (fun r => r.1 == d)).map (fun r => r.2)

/-- The pool entry appended for one eligible person. -/
def mkPoolEntry (reg nm rk sp : String) (pref : Bool) : PoolEntry :=
  { registry_id := reg, name := nm, rank := rk, specialty := sp,
    preferred := pref, duty := "" }

/-- `pools[wt].append(entry)` - the watch key always exists in the pool map. -/
def addToPool (pools : List (String × List PoolEntry)) (wt : String) (x : PoolEntry)
    : List (String × List PoolEntry) :=
  pools.map (fun kv => if kv.1 = wt then (kv.1, kv.2 ++ [x]) else kv)

/-- Processing of one personnel row in the pool-building loop of
`day_availability`: skip blank registry ids and anyone on leave or
declared unavailable; otherwise append an entry (with the `preferred`
flag) to every watch list the rank class is eligible for. -/
def availStep (leave_ids cannot_ids prefer_ids : List String)
    (pools : List (String × List PoolEntry)) (row : Person)
    : List (String × List PoolEntry) :=
  let reg := stripStr row.registry_number
  if reg = "" || leave_ids.contains reg || cannot_ids.contains reg then pools
  else
    let rk := stripStr row.rank
    let sp := stripStr row.specialty
    let nm := stripStr row.name
    (eligibleWatches rk).foldl
      (fun ps wt => addToPool ps wt (mkPoolEntry reg nm rk sp (prefer_ids.contains reg))) pools

/-- Result of `day_availability`: the error returns and the
not-in-port return carry no `"pools"` key, so the scheduler's
`info.get("pools", {})` reads them back as an empty pool map; only the
pool map matters downstream, so the report-only fields (leave / cannot /
prefer lists, status echo, error text) are not carried. -/
inductive DayAvail where
  | fail
  | avail (pools : List (String × List PoolEntry))
deriving DecidableEq

/-- The scheduler's `info.get("pools", {})`. -/
def poolsOf : DayAvail → List (String × List PoolEntry)
  | DayAvail.fail => []
  | DayAvail.avail pools => pools

/-- `scheduling_prep.day_availability`: ship-status and personnel checks,
exclusion of leave/cannot ids, rank-class pool building, and the final
per-watch stable sort by (seniority key, name) ascending. -/
def day_availability (st : SchedState) (d : Nat) : DayAvail :=
  match st.ship_status with
  | none => DayAvail.fail
  | some shipRows =>
    if shipRows.isEmpty then DayAvail.fail
    else
      match lookupA shipRows d with
      | none => DayAvail.fail
      | some status0 =>
        let ship_status := stripStr status0
        if !(["in port", "in-port", "port"].contains (lowerStr ship_status)) then DayAvail.fail
        else if st.personnel.isEmpty then DayAvail.fail
        else
          let leave_ids := idsOnDay st.leave d
          let cannot_ids := idsOnDay st.cannot d
          let prefer_ids := idsOnDay st.prefer d
          let pools0 := WATCH_TYPES.map (fun wt => (wt, ([] : List PoolEntry)))
          let pools := st.personnel.foldl (availStep leave_ids cannot_ids prefer_ids) pools0
          DayAvail.avail
            (pools.map (fun kv => (kv.1, sortedBy (fun p q => pairLeB (availKey p) (availKey q)) kv.2)))

/-! ## Ledger (`counters` dict of `make_month_schedule_all`) -/

/-- One per-person ledger entry of the `counters` dict. -/
structure Entry where
  name : String
  rank : String
  specialty : String
  total : Nat
  wknd : Nat
  hol : Nat
  hol_real : Nat
  dates : List Nat
  per_watch : List (String × Nat)
  hol_watch : List (String × Nat)
deriving DecidableEq

/-- The ledger: registry id to entry, insertion-ordered. -/
abbrev Counters := List (String × Entry)

/-- A (date to slot) cell of the output grid: a selected person snapshot,
Python `None` ("no one available", `Slot.nobody`) or the `"SEA"` marker. -/
inductive Slot where
  | sea
  | nobody
  | person (p : PoolEntry)
deriving DecidableEq

/-- `by_watch`: watch to (date to slot), insertion-ordered. -/
abbrev Grid := List (String × List (Nat × Slot))

/-- The value stored by `by_watch[w][date] = picked`. -/
def slotOfPick : Option PoolEntry → Slot
  | some p => Slot.person p
  | none => Slot.nobody

/-- `by_watch[w][date_iso] = v` (the watch key always exists). -/
def setGrid (g : Grid) (w : String) (d : Nat) (v : Slot) : Grid :=
  g.map (fun kv => if kv.1 = w then (kv.1, updateAssoc kv.2 d v) else kv)

/-- Read one grid cell. -/
def gridGet (g : Grid) (w : String) (d : Nat) : Option Slot :=
  match lookupA g w with
  | some m => lookupA m d
  | none => none

/-- Return value of `make_month_schedule_all`. -/
structure ScheduleResult where
  dates : List Nat
  by_watch : Grid
  counters : Counters
deriving DecidableEq

/-! ## The scheduler (`app/scheduler_in_port.py`) -/

/-- `scheduler_in_port._load_people_map`: registry number (stripped,
non-blank) to personnel row; later duplicate rows overwrite earlier ones. -/
def _load_people_map (st : SchedState) : List (String × Person) :=
  st.personnel.foldl
    (fun out r =>
      let key := stripStr r.registry_number
      if key ≠ "" then updateAssoc out key r else out) []

/-- `scheduler_in_port._primary_pool`: keep pool members that resolve in the
people map, whose duty is not in `DUTY_NEVER`, and whose recorded
`primary_shift` equals the watch; in `af_mode` annotate the duty. -/
def _primary_pool (info : DayAvail) (watch : String)
    (people_map : List (String × Person)) (af_mode : Bool) : List PoolEntry :=
  let base := (lookupA (poolsOf info) watch).getD []
  base.foldl
    (fun out p =>
      match lookupA people_map (stripStr p.registry_id) with
      | none => out
      | some row =>
        let duty := stripStr row.duty
        if DUTY_NEVER.contains duty then out
        else if stripStr row.primary_shift ≠ watch then out
        else out ++ [if af_mode then { p with duty := duty } else p]) []

/-- `scheduler_in_port._sort_af_youngest_first`:
`sorted(pool, key=(seniority, name), reverse=True)` - the flipped stable
comparison reproduces Python's `reverse=True` (equal keys keep their
original order; distinct keys are ordered descending). -/
def _sort_af_youngest_first (pool : List PoolEntry) : List PoolEntry :=
  sortedBy (fun p q => pairLeB (availKey q) (availKey p)) pool

/-- The fairness key (current total, seniority key, name) of
`scheduler_in_port._sort_fair_non_af`. -/
def fairKey (counters : Counters) (p : PoolEntry) : Nat × Nat × String :=
  (((lookupA counters p.registry_id).map Entry.total).getD 0, _seniority_key p.rank, p.name)

/-- `scheduler_in_port._sort_fair_non_af`: ascending stable sort by the
fairness key. -/
def _sort_fair_non_af (pool : List PoolEntry) (counters : Counters) : List PoolEntry :=
  sortedBy (fun p q => tripleLeB (fairKey counters p) (fairKey counters q)) pool

/-- `scheduler_in_port._ok_person_on_date`: weekday-only restriction, monthly
ceiling by rank (default 99 for unknown ranks), weekend cap (2), holiday cap
(1, on the `hol_real` counter), and the two-day rest gap. -/
def _ok_person_on_date (st : SchedState) (rid rank _duty : String) (date_iso : Nat)
    (counters : Counters) (weekend_cap holiday_cap weekday_only : Bool) : Bool :=
  if weekday_only && !(is_weekday date_iso) then false
  else
    let ceiling := (lookupA MAX_PER_MONTH (stripStr rank)).getD 99
    let tot := ((lookupA counters rid).map Entry.total).getD 0
    if tot ≥ ceiling then false
    else
      let is_wknd := is_weekend date_iso
      let is_hol := is_holiday st date_iso
      let wknd_cnt := ((lookupA counters rid).map Entry.wknd).getD 0
      let hol_cnt := ((lookupA counters rid).map Entry.hol_real).getD 0
      if weekend_cap && is_wknd && wknd_cnt ≥ 2 then false
      else if holiday_cap && is_hol && hol_cnt ≥ 1 then false
      else two_day_gap_ok (((lookupA counters rid).map Entry.dates).getD []) date_iso

/-- The scan predicate `rid not in used_today and _ok_person_on_date(...)`
shared by all selection loops of `make_month_schedule_all`. -/
def candidate_ok (st : SchedState) (date_iso : Nat) (counters : Counters)
    (used : List String) (duty_arg : String) (weekday_only : Bool) (p : PoolEntry) : Bool :=
  !(used.contains p.registry_id) &&
    _ok_person_on_date st p.registry_id (stripStr p.rank) duty_arg date_iso counters
      true true weekday_only

/-- The fresh ledger entry created by `counters.setdefault(rid, {...})`
(display attributes snapshotted from the picked pool entry). -/
def freshEntry (p : PoolEntry) : Entry :=
  { name := p.name, rank := p.rank, specialty := p.specialty,
    total := 0, wknd := 0, hol := 0, hol_real := 0, dates := [],
    per_watch := WATCH_TYPES.map (fun w => (w, 0)),
    hol_watch := WATCH_TYPES.map (fun w => (w, 0)) }

/-- `counts[w] += 1` on a per-watch counter dict. -/
def bumpWatch (l : List (String × Nat)) (w : String) : List (String × Nat) :=
  l.map (fun kv => if kv.1 = w then (kv.1, kv.2 + 1) else kv)

/-- The ledger mutation performed after a successful assignment
(`scheduler_in_port.make_month_schedule_all`, the `if picked:` blocks):
increment `total` and the watch's `per_watch` count, add the date to the
date set, and bump `wknd` / `hol` (+`hol_watch`) / `hol_real` according to
`is_weekend` / `_is_holiday_like` / `is_holiday`. -/
def updatedEntry (st : SchedState) (w : String) (d : Nat) (c0 : Entry) : Entry :=
  let c1 := { c0 with total := c0.total + 1,
                      per_watch := bumpWatch c0.per_watch w,
                      dates := if c0.dates.contains d then c0.dates else c0.dates ++ [d] }
  let c2 := if is_weekend d then { c1 with wknd := c1.wknd + 1 } else c1
  let c3 := if _is_holiday_like st d then
              { c2 with hol := c2.hol + 1, hol_watch := bumpWatch c2.hol_watch w } else c2
  if is_holiday st d then { c3 with hol_real := c3.hol_real + 1 } else c3

/-- The full ledger mutation: fetch-or-create the entry, apply
`updatedEntry`, store it back under the registry id. -/
def recordAssignment (st : SchedState) (counters : Counters) (p : PoolEntry)
    (w : String) (d : Nat) : Counters :=
  updateAssoc counters p.registry_id
    (updatedEntry st w d ((lookupA counters p.registry_id).getD (freshEntry p)))

/-- Phase A of the priority-watch selection: scan the regular candidates,
youngest first, for the first one passing `candidate_ok` (no weekday-only
restriction). -/
def af_phase_a (st : SchedState) (date_iso : Nat) (counters : Counters)
    (used : List String) (p_regular : List PoolEntry) : Option PoolEntry :=
  (_sort_af_youngest_first p_regular).find? (candidate_ok st date_iso counters used ("") false)

/-- Phase B of the priority-watch selection: scan the weekday-restricted
candidates, youngest first, with `weekday_only=True`. -/
def af_phase_b (st : SchedState) (date_iso : Nat) (counters : Counters)
    (used : List String) (p_weekday_only : List PoolEntry) : Option PoolEntry :=
  (_sort_af_youngest_first p_weekday_only).find?
    (candidate_ok st date_iso counters used ("weekday_only") true)

/-- The two-phase AF pick (`picked_af`): Phase B runs only when Phase A
selected nobody. -/
def pick_af (st : SchedState) (date_iso : Nat) (counters : Counters) (used : List String)
    (p_regular p_weekday_only : List PoolEntry) : Option PoolEntry :=
  match af_phase_a st date_iso counters used p_regular with
  | some p => some p
  | none => af_phase_b st date_iso counters used p_weekday_only

/-- One secondary-watch step of the daily loop: fairness-sorted scan, record
the slot, and on success update the ledger and the per-day used set. -/
def step_secondary (st : SchedState) (date_iso : Nat) (info : DayAvail)
    (people_map : List (String × Person)) (s : Grid × Counters × List String)
    (w : String) : Grid × Counters × List String :=
  let pool_w := _primary_pool info w people_map false
  let picked := (_sort_fair_non_af pool_w s.2.1).find?
    (candidate_ok st date_iso s.2.1 s.2.2 ("") false)
  let g := setGrid s.1 w date_iso (slotOfPick picked)
  match picked with
  | some p => (g, recordAssignment st s.2.1 p w date_iso, s.2.2 ++ [p.registry_id])
  | none => (g, s.2.1, s.2.2)

/-- `ship.loc[ship["date"] == date_iso, "status"].iloc[0]` - the first
status recorded for the date. -/
def shipStatusOf (shipRows : List (Nat × String)) (d : Nat) : String :=
  ((shipRows.find? (fun r => r.1 == d)).map (fun r => r.2)).getD ""

/-- One iteration of the date loop of `make_month_schedule_all`: mark all
five watches `"SEA"` when the status is not `"in port"`; otherwise run the
two-phase AF selection followed by the four secondary watches. -/
def process_day (st : SchedState) (shipRows : List (Nat × String))
    (people_map : List (String × Person)) (acc : Grid × Counters) (date_iso : Nat)
    : Grid × Counters :=
  let status := shipStatusOf shipRows date_iso
  if stripStr (lowerStr status) ≠ "in port" then
    (WATCH_TYPES.foldl (fun g w => setGrid g w date_iso Slot.sea) acc.1, acc.2)
  else
    let info := day_availability st date_iso
    let pool_af_all := _primary_pool info W_AF people_map true
    let p_weekday_only := pool_af_all.filter (fun p => DUTY_WEEKDAY_ONLY.contains (stripStr p.duty))
    let p_regular := pool_af_all.filter (fun p => !(DUTY_WEEKDAY_ONLY.contains (stripStr p.duty)))
    let picked_af := pick_af st date_iso acc.2 [] p_regular p_weekday_only
    let g1 := setGrid acc.1 W_AF date_iso (slotOfPick picked_af)
    let c1 := match picked_af with
      | some p => recordAssignment st acc.2 p W_AF date_iso
      | none => acc.2
    let used1 : List String := match picked_af with
      | some p => [p.registry_id]
      | none => []
    let s := SECONDARY_WATCHES.foldl (step_secondary st date_iso info people_map) (g1, c1, used1)
    (s.1, s.2.1)

/-- `scheduler_in_port.make_month_schedule_all`: abort with an explicit
empty result when the people map is empty (`by_watch` stays the empty
dict) or when the ship-status file is absent (`by_watch` maps each of the
five watches to an empty dict); otherwise fold the daily loop over the
sorted date column. -/
def make_month_schedule_all (st : SchedState) : ScheduleResult :=
  let people_map := _load_people_map st
  if people_map.isEmpty then { dates := [], by_watch := [], counters := [] }
  else
    match st.ship_status with
    | none => { dates := [], by_watch := WATCH_TYPES.map (fun w => (w, [])), counters := [] }
    | some shipRows =>
      let dates := sortedBy natLeB (shipRows.map (fun r => r.1))
      let s := dates.foldl (process_day st shipRows people_map)
        (WATCH_TYPES.map (fun w => (w, [])), [])
      { dates := dates, by_watch := s.1, counters := s.2 }

/-! # Generic lemmas about the container models -/

theorem lookupA_nil {α β : Type} [DecidableEq α] (k : α) :
    lookupA ([] : List (α × β)) k = none := rfl

theorem lookupA_cons {α β : Type} [DecidableEq α] (kv : α × β) (t : List (α × β)) (k : α) :
    lookupA (kv :: t) k = if kv.1 = k then some kv.2 else lookupA t k := rfl

theorem updateAssoc_cons {α β : Type} [DecidableEq α] (kv : α × β) (t : List (α × β)) (k : α) (v : β) :
    updateAssoc (kv :: t) k v = if kv.1 = k then (kv.1, v) :: t else kv :: updateAssoc t k v := rfl

theorem lookupA_updateAssoc_self {α β : Type} [DecidableEq α]
    (l : List (α × β)) (k : α) (v : β) : lookupA (updateAssoc l k v) k = some v := by
  induction l with
  | nil => simp [updateAssoc, lookupA]
  | cons kv t ih =>
    rw [updateAssoc_cons]
    by_cases h : kv.1 = k
    · simp [h, lookupA_cons]
    · simp [h, lookupA_cons, ih]

theorem lookupA_updateAssoc_ne {α β : Type} [DecidableEq α]
    (l : List (α × β)) (k k' : α) (v : β) (h : k' ≠ k) :
    lookupA (updateAssoc l k v) k' = lookupA l k' := by
  induction l with
  | nil =>
    have h' : ¬(k = k') := fun hh => h hh.symm
    simp [updateAssoc, lookupA, h']
  | cons kv t ih =>
    rw [updateAssoc_cons]
    by_cases hk : kv.1 = k
    · have hne : ¬(kv.1 = k') := by
        rw [hk]
        exact fun hh => h hh.symm
      simp [if_pos hk, lookupA_cons, hne]
    · rw [if_neg hk, lookupA_cons, lookupA_cons]
      by_cases hk' : kv.1 = k'
      · rw [if_pos hk', if_pos hk']
      · rw [if_neg hk', if_neg hk', ih]

theorem lookupA_updateAssoc_cases {α β : Type} [DecidableEq α]
    {l : List (α × β)} {k k' : α} {v v' : β}
    (h : lookupA (updateAssoc l k v) k' = some v') :
    (k' = k ∧ v' = v) ∨ lookupA l k' = some v' := by
  by_cases hk : k' = k
  · subst hk
    rw [lookupA_updateAssoc_self] at h
    exact Or.inl ⟨rfl, (Option.some_inj.mp h).symm⟩
  · rw [lookupA_updateAssoc_ne _ _ _ _ hk] at h
    exact Or.inr h

theorem lookupA_mem {α β : Type} [DecidableEq α]
    {l : List (α × β)} {k : α} {v : β} (h : lookupA l k = some v) : (k, v) ∈ l := by
  induction l with
  | nil => simp [lookupA] at h
  | cons kv t ih =>
    rw [lookupA_cons] at h
    by_cases hk : kv.1 = k
    · rw [if_pos hk] at h
      have hv : kv.2 = v := Option.some_inj.mp h
      have hkv : kv = (k, v) := Prod.ext hk hv
      rw [← hkv]
      exact List.mem_cons_self _ _
    · rw [if_neg hk] at h
      exact List.mem_cons_of_mem _ (ih h)

theorem lookupA_mapValues {α β γ : Type} [DecidableEq α]
    (l : List (α × β)) (f : β → γ) (k : α) :
    lookupA (l.map (fun kv => (kv.1, f kv.2))) k = (lookupA l k).map f := by
  induction l with
  | nil => simp [lookupA]
  | cons kv t ih =>
    by_cases hk : kv.1 = k
    · simp [lookupA_cons, hk]
    · simp [lookupA_cons, hk, ih]

/-! ## Lemmas about update-at-key maps (`setGrid`, `addToPool`, `bumpWatch`) -/

theorem lookupA_mapIfKey_eq {α β : Type} [DecidableEq α]
    (l : List (α × β)) (w : α) (f : β → β) :
    lookupA (l.map (fun kv => if kv.1 = w then (kv.1, f kv.2) else kv)) w
      = (lookupA l w).map f := by
  induction l with
  | nil => simp [lookupA]
  | cons kv t ih =>
    by_cases hw : kv.1 = w
    · simp [lookupA_cons, hw]
    · simp [lookupA_cons, hw, ih]

theorem lookupA_mapIfKey_ne {α β : Type} [DecidableEq α]
    (l : List (α × β)) (w : α) (f : β → β) (k : α) (h : k ≠ w) :
    lookupA (l.map (fun kv => if kv.1 = w then (kv.1, f kv.2) else kv)) k
      = lookupA l k := by
  induction l with
  | nil => simp [lookupA]
  | cons kv t ih =>
    by_cases hw : kv.1 = w
    · have hk : ¬(kv.1 = k) := by
        rw [hw]
        exact fun hh => h hh.symm
      have hwk : ¬(w = k) := fun hh => h hh.symm
      simp [lookupA_cons, hw, hk, hwk, ih]
    · by_cases hk : kv.1 = k
      · have hkw : ¬(k = w) := h
        simp [lookupA_cons, hw, hk, hkw]
      · simp [lookupA_cons, hw, hk, ih]

theorem keys_mapIfKey {α β : Type} [DecidableEq α]
    (l : List (α × β)) (w : α) (f : β → β) :
    (l.map (fun kv => if kv.1 = w then (kv.1, f kv.2) else kv)).map Prod.fst
      = l.map Prod.fst := by
  induction l with
  | nil => rfl
  | cons kv t ih =>
    by_cases hw : kv.1 = w
    · simp [hw, ih]
    · simp [hw, ih]

theorem lookupA_isSome_of_mem_keys {α β : Type} [DecidableEq α]
    {l : List (α × β)} {k : α} (h : k ∈ l.map Prod.fst) : ∃ v, lookupA l k = some v := by
  induction l with
  | nil => simp at h
  | cons kv t ih =>
    by_cases hk : kv.1 = k
    · exact ⟨kv.2, by simp [lookupA_cons, hk]⟩
    · have hmem : k ∈ t.map Prod.fst := by
        rcases List.mem_cons.mp h with h1 | h2
        · exact absurd h1.symm hk
        · exact h2
      obtain ⟨v, hv⟩ := ih hmem
      exact ⟨v, by simp [lookupA_cons, hk, hv]⟩

/-! ## Lemmas about the stable sort -/

theorem mem_insertOrdered {α : Type} (le : α → α → Bool) (x : α) (l : List α) (z : α) :
    z ∈ insertOrdered le x l ↔ z = x ∨ z ∈ l := by
  induction l with
  | nil => simp [insertOrdered]
  | cons y ys ih =>
    by_cases h : le y x = true
    · simp only [insertOrdered, if_pos h, List.mem_cons, ih]
      tauto
    · simp only [insertOrdered, if_neg h]
      exact List.mem_cons

theorem mem_foldl_insertOrdered {α : Type} (le : α → α → Bool) (l : List α) :
    ∀ (acc : List α) (z : α),
      z ∈ l.foldl (fun a x => insertOrdered le x a) acc ↔ z ∈ acc ∨ z ∈ l := by
  induction l with
  | nil => simp
  | cons x t ih =>
    intro acc z
    simp only [List.foldl_cons, ih, mem_insertOrdered, List.mem_cons]
    tauto

theorem mem_sortedBy {α : Type} (le : α → α → Bool) (l : List α) (z : α) :
    z ∈ sortedBy le l ↔ z ∈ l := by
  simp [sortedBy, mem_foldl_insertOrdered]

theorem insertOrdered_perm {α : Type} (le : α → α → Bool) (x : α) (l : List α) :
    (insertOrdered le x l).Perm (x :: l) := by
  induction l with
  | nil => simp [insertOrdered]
  | cons y ys ih =>
    by_cases h : le y x = true
    · simp only [insertOrdered, if_pos h]
      exact List.Perm.trans (ih.cons y) (List.Perm.swap x y ys)
    · simp [insertOrdered, if_neg h, List.Perm.refl]

theorem sortedBy_perm {α : Type} (le : α → α → Bool) (l : List α) :
    (sortedBy le l).Perm l := by
  have main : ∀ (l acc : List α),
      (l.foldl (fun a x => insertOrdered le x a) acc).Perm (acc ++ l) := by
    intro l
    induction l with
    | nil => intro acc; simp
    | cons x t ih =>
      intro acc
      have h1 := ih (insertOrdered le x acc)
      have h2 : (insertOrdered le x acc ++ t).Perm ((x :: acc) ++ t) :=
        (insertOrdered_perm le x acc).append_right t
      have h3 : ((x :: acc) ++ t).Perm (acc ++ x :: t) := by
        have := (@List.perm_middle _ x acc t).symm
        simpa using this
      exact (h1.trans h2).trans h3
  simpa [sortedBy] using main l []

theorem insertOrdered_pairwise {α : Type} (le : α → α → Bool)
    (htrans : ∀ a b c, le a b = true → le b c = true → le a c = true)
    (htotal : ∀ a b, le a b = true ∨ le b a = true)
    (x : α) (l : List α) (h : l.Pairwise (fun a b => le a b = true)) :
    (insertOrdered le x l).Pairwise (fun a b => le a b = true) := by
  induction l with
  | nil => simp [insertOrdered]
  | cons y ys ih =>
    rcases List.pairwise_cons.mp h with ⟨hy, hys⟩
    by_cases hle : le y x = true
    · simp only [insertOrdered, if_pos hle]
      refine List.pairwise_cons.mpr ⟨?_, ih hys⟩
      intro z hz
      rcases (mem_insertOrdered le x ys z).mp hz with rfl | hzys
      · exact hle
      · exact hy z hzys
    · have hxy : le x y = true := (htotal x y).resolve_right (fun hh => hle hh)
      simp only [insertOrdered, if_neg hle]
      refine List.pairwise_cons.mpr ⟨?_, h⟩
      intro z hz
      rcases List.mem_cons.mp hz with rfl | hzys
      · exact hxy
      · exact htrans x y z hxy (hy z hzys)

theorem sortedBy_pairwise {α : Type} (le : α → α → Bool)
    (htrans : ∀ a b c, le a b = true → le b c = true → le a c = true)
    (htotal : ∀ a b, le a b = true ∨ le b a = true)
    (l : List α) : (sortedBy le l).Pairwise (fun a b => le a b = true) := by
  have main : ∀ (l acc : List α),
      acc.Pairwise (fun a b => le a b = true) →
      (l.foldl (fun a x => insertOrdered le x a) acc).Pairwise (fun a b => le a b = true) := by
    intro l
    induction l with
    | nil => intro acc h; simpa using h
    | cons x t ih =>
      intro acc h
      exact ih _ (insertOrdered_pairwise le htrans htotal x acc h)
  exact main l [] List.Pairwise.nil

theorem insertOrdered_map {α β : Type} (le : α → α → Bool) (le' : β → β → Bool)
    (f : α → β) (hcomp : ∀ a b, le a b = le' (f a) (f b)) (x : α) (l : List α) :
    (insertOrdered le x l).map f = insertOrdered le' (f x) (l.map f) := by
  induction l with
  | nil => simp [insertOrdered]
  | cons y ys ih =>
    by_cases h : le y x = true
    · have h' : le' (f y) (f x) = true := by rw [← hcomp]; exact h
      simp [insertOrdered, h, h', ih]
    · have h' : ¬(le' (f y) (f x) = true) := by rw [← hcomp]; exact h
      simp [insertOrdered, h, h']

theorem sortedBy_map {α β : Type} (le : α → α → Bool) (le' : β → β → Bool)
    (f : α → β) (hcomp : ∀ a b, le a b = le' (f a) (f b)) (l : List α) :
    (sortedBy le l).map f = sortedBy le' (l.map f) := by
  have main : ∀ (l acc : List α),
      (l.foldl (fun a x => insertOrdered le x a) acc).map f
        = (l.map f).foldl (fun a x => insertOrdered le' x a) (acc.map f) := by
    intro l
    induction l with
    | nil => intro acc; simp
    | cons x t ih =>
      intro acc
      simp only [List.foldl_cons, List.map_cons, ih,
        insertOrdered_map le le' f hcomp]
  simpa [sortedBy] using main l []

/-! ## Fold preservation -/

theorem foldl_preserve {σ α : Type} (P : σ → Prop) (f : σ → α → σ) (l : List α) :
    ∀ (init : σ), P init → (∀ s a, a ∈ l → P s → P (f s a)) → P (l.foldl f init) := by
  induction l with
  | nil => intro init h _; simpa using h
  | cons x t ih =>
    intro init h hstep
    exact ih (f init x) (hstep init x (List.mem_cons_self _ _) h)
      (fun s a ha hs => hstep s a (List.mem_cons_of_mem _ ha) hs)

/-! ## Order properties of the sort keys -/

theorem clLt_trans : ∀ (a b c : List Char),
    clLt a b = true → clLt b c = true → clLt a c = true := by
  intro a
  induction a with
  | nil =>
    intro b c hab hbc
    cases b with
    | nil => simp [clLt] at hab
    | cons y ys =>
      cases c with
      | nil => simp [clLt] at hbc
      | cons z zs => simp [clLt]
  | cons x xs ih =>
    intro b c hab hbc
    cases b with
    | nil => simp [clLt] at hab
    | cons y ys =>
      cases c with
      | nil => simp [clLt] at hbc
      | cons z zs =>
        simp only [clLt] at hab hbc ⊢
        by_cases hxy : x < y
        · by_cases hyz : y < z
          · have hxz : x < z := lt_trans hxy hyz
            simp [hxz]
          · by_cases hzy : z < y
            · rw [if_neg hyz, if_pos hzy] at hbc
              exact absurd hbc (by simp)
            · have hyz' : y = z := le_antisymm (not_lt.mp hzy) (not_lt.mp hyz)
              have hxz : x < z := hyz' ▸ hxy
              simp [hxz]
        · by_cases hyx : y < x
          · rw [if_neg hxy, if_pos hyx] at hab
            exact absurd hab (by simp)
          · have hxy' : x = y := le_antisymm (not_lt.mp hyx) (not_lt.mp hxy)
            subst hxy'
            rw [if_neg hxy, if_neg hyx] at hab
            by_cases hxz : x < z
            · simp [hxz]
            · by_cases hzx : z < x
              · rw [if_neg hxz, if_pos hzx] at hbc
                exact absurd hbc (by simp)
              · rw [if_neg hxz, if_neg hzx] at hbc
                rw [if_neg hxz, if_neg hzx]
                exact ih ys zs hab hbc

theorem clLt_trichotomy : ∀ (a b : List Char),
    clLt a b = true ∨ a = b ∨ clLt b a = true := by
  intro a
  induction a with
  | nil =>
    intro b
    cases b with
    | nil => exact Or.inr (Or.inl rfl)
    | cons y ys => exact Or.inl (by simp [clLt])
  | cons x xs ih =>
    intro b
    cases b with
    | nil => exact Or.inr (Or.inr (by simp [clLt]))
    | cons y ys =>
      rcases lt_trichotomy x y with h | h | h
      · exact Or.inl (by simp [clLt, h])
      · subst h
        rcases ih ys with h2 | h2 | h2
        · exact Or.inl (by simp [clLt, lt_irrefl, h2])
        · exact Or.inr (Or.inl (by rw [h2]))
        · exact Or.inr (Or.inr (by simp [clLt, lt_irrefl, h2]))
      · exact Or.inr (Or.inr (by simp [clLt, h]))

theorem string_data_inj {a b : String} (h : a.data = b.data) : a = b := by
  cases a
  cases b
  simp only at h
  rw [h]

theorem strLeB_total (a b : String) : strLeB a b = true ∨ strLeB b a = true := by
  rcases clLt_trichotomy a.data b.data with h | h | h
  · exact Or.inl (by simp [strLeB, strLtB, h])
  · have hab : a = b := string_data_inj h
    subst hab
    exact Or.inl (by simp [strLeB])
  · exact Or.inr (by simp [strLeB, strLtB, h])

theorem strLeB_trans (a b c : String) (hab : strLeB a b = true) (hbc : strLeB b c = true) :
    strLeB a c = true := by
  rcases Bool.or_eq_true _ _ |>.mp hab with h1 | h1
  · rcases Bool.or_eq_true _ _ |>.mp hbc with h2 | h2
    · exact Bool.or_eq_true _ _ |>.mpr (Or.inl (clLt_trans _ _ _ h1 h2))
    · have hbc' : b = c := by simpa [beq_iff_eq] using h2
      subst hbc'
      exact Bool.or_eq_true _ _ |>.mpr (Or.inl h1)
  · have hab' : a = b := by simpa [beq_iff_eq] using h1
    subst hab'
    exact hbc

theorem pairLeB_total (x y : Nat × String) : pairLeB x y = true ∨ pairLeB y x = true := by
  rcases lt_trichotomy x.1 y.1 with h | h | h
  · exact Or.inl (by simp [pairLeB, h])
  · rcases strLeB_total x.2 y.2 with h2 | h2
    · exact Or.inl (by simp [pairLeB, h, h2])
    · exact Or.inr (by simp [pairLeB, h.symm, h2])
  · exact Or.inr (by simp [pairLeB, h])

theorem pairLeB_trans (x y z : Nat × String)
    (hxy : pairLeB x y = true) (hyz : pairLeB y z = true) : pairLeB x z = true := by
  simp only [pairLeB, Bool.or_eq_true, Bool.and_eq_true, decide_eq_true_eq,
    beq_iff_eq] at hxy hyz ⊢
  rcases hxy with h1 | ⟨h1, h1'⟩
  · rcases hyz with h2 | ⟨h2, _⟩
    · exact Or.inl (lt_trans h1 h2)
    · exact Or.inl (h2 ▸ h1)
  · rcases hyz with h2 | ⟨h2, h2'⟩
    · exact Or.inl (h1 ▸ h2)
    · exact Or.inr ⟨h1.trans h2, strLeB_trans _ _ _ h1' h2'⟩

/-! ## Facts extracted from the admissibility check and the ledger update -/

theorem two_day_gap_ok_iff (prev : List Nat) (d : Nat) :
    two_day_gap_ok prev d = true ↔ ∀ s ∈ prev, 3 ≤ ((d : Int) - (s : Int)).natAbs := by
  simp only [two_day_gap_ok, List.all_eq_true, Bool.not_eq_true',
    decide_eq_false_iff_not, not_lt]

theorem gap_not_mem {prev : List Nat} {d : Nat}
    (hg : two_day_gap_ok prev d = true) : d ∉ prev := by
  intro hmem
  have h := (two_day_gap_ok_iff prev d).mp hg d hmem
  omega

theorem ok_iff (st : SchedState) (rid rank da : String) (d : Nat) (c : Counters) (wo : Bool) :
    _ok_person_on_date st rid rank da d c true true wo = true ↔
    ((wo = true → is_weekday d = true) ∧
     ((lookupA c rid).map Entry.total).getD 0
        < (lookupA MAX_PER_MONTH (stripStr rank)).getD 99 ∧
     (is_weekend d = true → ((lookupA c rid).map Entry.wknd).getD 0 < 2) ∧
     (is_holiday st d = true → ((lookupA c rid).map Entry.hol_real).getD 0 < 1) ∧
     two_day_gap_ok (((lookupA c rid).map Entry.dates).getD []) d = true) := by
  simp only [_ok_person_on_date]
  split_ifs with h1 h2 h3 h4 <;>
    simp_all [is_weekday] <;> omega

theorem updatedEntry_total (st : SchedState) (w : String) (d : Nat) (e : Entry) :
    (updatedEntry st w d e).total = e.total + 1 := by
  unfold updatedEntry
  by_cases h1 : is_weekend d = true <;> by_cases h2 : _is_holiday_like st d = true <;>
    by_cases h3 : is_holiday st d = true <;> simp [h1, h2, h3]

theorem updatedEntry_dates (st : SchedState) (w : String) (d : Nat) (e : Entry) :
    (updatedEntry st w d e).dates
      = if e.dates.contains d then e.dates else e.dates ++ [d] := by
  unfold updatedEntry
  by_cases h1 : is_weekend d = true <;> by_cases h2 : _is_holiday_like st d = true <;>
    by_cases h3 : is_holiday st d = true <;> simp [h1, h2, h3]

theorem updatedEntry_wknd (st : SchedState) (w : String) (d : Nat) (e : Entry) :
    (updatedEntry st w d e).wknd = if is_weekend d then e.wknd + 1 else e.wknd := by
  unfold updatedEntry
  by_cases h1 : is_weekend d = true <;> by_cases h2 : _is_holiday_like st d = true <;>
    by_cases h3 : is_holiday st d = true <;> simp [h1, h2, h3]

theorem updatedEntry_hol (st : SchedState) (w : String) (d : Nat) (e : Entry) :
    (updatedEntry st w d e).hol
      = if _is_holiday_like st d then e.hol + 1 else e.hol := by
  unfold updatedEntry
  by_cases h1 : is_weekend d = true <;> by_cases h2 : _is_holiday_like st d = true <;>
    by_cases h3 : is_holiday st d = true <;> simp [h1, h2, h3]

theorem updatedEntry_hol_real (st : SchedState) (w : String) (d : Nat) (e : Entry) :
    (updatedEntry st w d e).hol_real
      = if is_holiday st d then e.hol_real + 1 else e.hol_real := by
  unfold updatedEntry
  by_cases h1 : is_weekend d = true <;> by_cases h2 : _is_holiday_like st d = true <;>
    by_cases h3 : is_holiday st d = true <;> simp [h1, h2, h3]

theorem updatedEntry_rank (st : SchedState) (w : String) (d : Nat) (e : Entry) :
    (updatedEntry st w d e).rank = e.rank := by
  unfold updatedEntry
  by_cases h1 : is_weekend d = true <;> by_cases h2 : _is_holiday_like st d = true <;>
    by_cases h3 : is_holiday st d = true <;> simp [h1, h2, h3]

/-! ## The per-entry ledger invariant -/

/-- Any two distinct dates in a set are at least 3 calendar days apart. -/
def gapOK (l : List Nat) : Prop :=
  ∀ d1 ∈ l, ∀ d2 ∈ l, d1 ≠ d2 → 3 ≤ ((d1 : Int) - (d2 : Int)).natAbs

/-- The hypothesis-free part of the ledger invariant: caps respected,
total consistent with the date set, date set duplicate-free and
rest-gap-spaced, and `hol_real` counting exactly the declared holidays. -/
def entryConsistent (st : SchedState) (e : Entry) : Prop :=
  e.wknd ≤ 2 ∧ e.hol_real ≤ 1 ∧ e.total = e.dates.length ∧ e.dates.Nodup ∧
  gapOK e.dates ∧ e.hol_real = (e.dates.filter (fun x => is_holiday st x)).length

/-- The ledger invariant, quantified over all entries. -/
def CInv0 (st : SchedState) (c : Counters) : Prop :=
  ∀ rid e, lookupA c rid = some e → entryConsistent st e

theorem entryConsistent_fresh (st : SchedState) (p : PoolEntry) :
    entryConsistent st (freshEntry p) := by
  refine ⟨by simp [freshEntry], by simp [freshEntry], by simp [freshEntry],
    by simp [freshEntry], ?_, by simp [freshEntry]⟩
  intro d1 h1
  simp [freshEntry] at h1

theorem entryConsistent_update (st : SchedState) (e : Entry) (w : String) (d : Nat)
    (he : entryConsistent st e)
    (hw : is_weekend d = true → e.wknd < 2)
    (hh : is_holiday st d = true → e.hol_real < 1)
    (hg : two_day_gap_ok e.dates d = true) :
    entryConsistent st (updatedEntry st w d e) := by
  obtain ⟨hewknd, hehol, hetot, hend, hegap, hecount⟩ := he
  have hnotmem : d ∉ e.dates := gap_not_mem hg
  have hcont : e.dates.contains d = false := by
    rw [← Bool.not_eq_true]
    simpa [List.contains] using hnotmem
  have hdates : (updatedEntry st w d e).dates = e.dates ++ [d] := by
    rw [updatedEntry_dates, hcont]
    simp
  refine ⟨?_, ?_, ?_, ?_, ?_, ?_⟩
  · rw [updatedEntry_wknd]
    by_cases hb : is_weekend d = true
    · rw [if_pos hb]
      exact hw hb
    · rw [if_neg hb]
      exact hewknd
  · rw [updatedEntry_hol_real]
    by_cases hb : is_holiday st d = true
    · rw [if_pos hb]
      exact hh hb
    · rw [if_neg hb]
      exact hehol
  · rw [updatedEntry_total, hdates]
    simp [hetot]
  · rw [hdates, List.nodup_append]
    refine ⟨hend, by simp, ?_⟩
    intro a ha hb
    simp at hb
    subst hb
    exact hnotmem ha
  · rw [hdates]
    intro d1 h1 d2 h2 hne
    have hnew := (two_day_gap_ok_iff e.dates d).mp hg
    rcases List.mem_append.mp h1 with h1o | h1n
    · rcases List.mem_append.mp h2 with h2o | h2n
      · exact hegap d1 h1o d2 h2o hne
      · have h2d : d2 = d := by simpa using h2n
        have h3 := hnew d1 h1o
        rw [h2d]
        omega
    · have h1d : d1 = d := by simpa using h1n
      rcases List.mem_append.mp h2 with h2o | h2n
      · have h3 := hnew d2 h2o
        rw [h1d]
        omega
      · have h2d : d2 = d := by simpa using h2n
        exact absurd (h1d.trans h2d.symm) hne
  · rw [updatedEntry_hol_real, hdates, List.filter_append]
    by_cases hb : is_holiday st d = true
    · simp [hb, hecount]
    · have hb' : is_holiday st d = false := by
        rw [← Bool.not_eq_true]
        exact hb
      simp [hb', hecount]

theorem CInv0_record (st : SchedState) (c : Counters) (p : PoolEntry) (w : String)
    (d : Nat) (da : String) (wo : Bool)
    (hC : CInv0 st c)
    (hok : _ok_person_on_date st p.registry_id (stripStr p.rank) da d c true true wo = true) :
    CInv0 st (recordAssignment st c p w d) := by
  intro rid e hlook
  unfold recordAssignment at hlook
  rcases lookupA_updateAssoc_cases hlook with ⟨hrid, hval⟩ | hold
  · obtain ⟨-, -, hwf, hhf, hgf⟩ := (ok_iff st p.registry_id (stripStr p.rank) da d c wo).mp hok
    subst hval
    cases hc : lookupA c p.registry_id with
    | none =>
      rw [hc] at hwf hhf hgf
      simp only [Option.map_none', Option.getD_none] at hwf hhf hgf
      simp only [hc, Option.getD_none]
      refine entryConsistent_update st _ w d (entryConsistent_fresh st p) ?_ ?_ ?_
      · intro hb
        simpa [freshEntry] using hwf hb
      · intro hb
        simpa [freshEntry] using hhf hb
      · simpa [freshEntry] using hgf
    | some e1 =>
      rw [hc] at hwf hhf hgf
      simp only [Option.map_some', Option.getD_some] at hwf hhf hgf
      simp only [hc, Option.getD_some]
      exact entryConsistent_update st e1 w d (hC _ _ hc) hwf hhf hgf
  · exact hC rid e hold

/-! ## Where pool entries come from -/

/-- A pool entry's identifying attributes come from some personnel row. -/
def RowFact (personnel : List Person) (q : PoolEntry) : Prop :=
  ∃ r ∈ personnel, q.registry_id = stripStr r.registry_number ∧ q.rank = stripStr r.rank

theorem pm_lookup (st : SchedState) (k : String) (row : Person)
    (h : lookupA (_load_people_map st) k = some row) :
    row ∈ st.personnel ∧ stripStr row.registry_number = k := by
  unfold _load_people_map at h
  have main := foldl_preserve
    (fun out => ∀ k' r, lookupA out k' = some r →
      r ∈ st.personnel ∧ stripStr r.registry_number = k')
    (fun out r =>
      let key := stripStr r.registry_number
      if key ≠ "" then updateAssoc out key r else out)
    st.personnel []
    (by intro k' r hr; simp [lookupA] at hr)
    (by
      intro s a ha hP
      intro k' r hr
      simp only at hr
      by_cases hkey : stripStr a.registry_number ≠ ""
      · rw [if_pos hkey] at hr
        rcases lookupA_updateAssoc_cases hr with ⟨hk, hv⟩ | hold
        · subst hv
          exact ⟨ha, hk.symm⟩
        · exact hP _ _ hold
      · rw [if_neg hkey] at hr
        exact hP _ _ hr)
  exact main k row h

theorem lookupA_const_nil (ws : List String) (w : String) :
    (lookupA (ws.map (fun wt => (wt, ([] : List PoolEntry)))) w).getD [] = [] := by
  induction ws with
  | nil => simp [lookupA]
  | cons a t ih =>
    by_cases hw : a = w
    · simp [lookupA_cons, hw]
    · simp [lookupA_cons, hw, ih]

theorem mem_addToPool {pools : List (String × List PoolEntry)} {wt : String}
    {x : PoolEntry} {w : String} {q : PoolEntry}
    (h : q ∈ (lookupA (addToPool pools wt x) w).getD []) :
    q ∈ (lookupA pools w).getD [] ∨ q = x := by
  unfold addToPool at h
  by_cases hw : w = wt
  · subst hw
    rw [lookupA_mapIfKey_eq pools w (fun l => l ++ [x])] at h
    cases hc : lookupA pools w with
    | none =>
      rw [hc] at h
      simp at h
    | some l =>
      rw [hc] at h
      simp only [Option.map_some', Option.getD_some] at h
      rcases List.mem_append.mp h with ho | hn
      · exact Or.inl (by simpa [hc] using ho)
      · exact Or.inr (by simpa using hn)
  · rw [lookupA_mapIfKey_ne pools wt (fun l => l ++ [x]) w hw] at h
    exact Or.inl h

theorem availStep_fact (lids cids pids : List String) (pools : List (String × List PoolEntry))
    (row : Person) (personnel : List Person) (hrow : row ∈ personnel)
    (hP : ∀ w q, q ∈ (lookupA pools w).getD [] → RowFact personnel q) :
    ∀ w q, q ∈ (lookupA (availStep lids cids pids pools row) w).getD [] →
      RowFact personnel q := by
  intro w q hq
  unfold availStep at hq
  by_cases hguard : (stripStr row.registry_number = ""
      ∨ lids.contains (stripStr row.registry_number) = true
      ∨ cids.contains (stripStr row.registry_number) = true)
  · have hg : (stripStr row.registry_number = ""
        || lids.contains (stripStr row.registry_number)
        || cids.contains (stripStr row.registry_number)) = true := by
      simp only [Bool.or_eq_true, decide_eq_true_eq]
      rcases hguard with h1 | h1 | h1
      · exact Or.inl (Or.inl (by simp [h1]))
      · exact Or.inl (Or.inr h1)
      · exact Or.inr h1
    rw [if_pos hg] at hq
    exact hP w q hq
  · have hg : ¬((stripStr row.registry_number = ""
        || lids.contains (stripStr row.registry_number)
        || cids.contains (stripStr row.registry_number)) = true) := by
      simp only [Bool.or_eq_true, decide_eq_true_eq]
      intro hc
      apply hguard
      tauto
    rw [if_neg hg] at hq
    have main := foldl_preserve
      (fun ps => ∀ w q, q ∈ (lookupA ps w).getD [] → RowFact personnel q)
      (fun ps wt => addToPool ps wt
        (mkPoolEntry (stripStr row.registry_number) (stripStr row.name)
          (stripStr row.rank) (stripStr row.specialty)
          (pids.contains (stripStr row.registry_number))))
      (eligibleWatches (stripStr row.rank)) pools hP
      (by
        intro s a _ hPs
        intro w' q' hq'
        rcases mem_addToPool hq' with ho | hn
        · exact hPs w' q' ho
        · subst hn
          exact ⟨row, hrow, rfl, rfl⟩)
    exact main w q hq

theorem day_avail_fact (st : SchedState) (d : Nat) (w : String) (q : PoolEntry)
    (h : q ∈ (lookupA (poolsOf (day_availability st d)) w).getD []) :
    RowFact st.personnel q := by
  unfold day_availability at h
  split at h
  · simp [poolsOf, lookupA] at h
  · rename_i shipRows
    split at h
    · simp [poolsOf, lookupA] at h
    · split at h
      · simp [poolsOf, lookupA] at h
      · simp only [] at h
        split at h
        · simp [poolsOf, lookupA] at h
        · split at h
          · simp [poolsOf, lookupA] at h
          · simp only [poolsOf] at h
            rw [lookupA_mapValues] at h
            cases hc : lookupA (st.personnel.foldl
                (availStep (idsOnDay st.leave d) (idsOnDay st.cannot d) (idsOnDay st.prefer d))
                (WATCH_TYPES.map (fun wt => (wt, ([] : List PoolEntry))))) w with
            | none =>
              rw [hc] at h
              simp at h
            | some l =>
              rw [hc] at h
              simp only [Option.map_some', Option.getD_some] at h
              have hmem : q ∈ l := (mem_sortedBy _ l q).mp h
              have main := foldl_preserve
                (fun ps => ∀ w q, q ∈ (lookupA ps w).getD [] → RowFact st.personnel q)
                (availStep (idsOnDay st.leave d) (idsOnDay st.cannot d) (idsOnDay st.prefer d))
                st.personnel
                (WATCH_TYPES.map (fun wt => (wt, ([] : List PoolEntry))))
                (by
                  intro w' q' hq'
                  rw [lookupA_const_nil] at hq'
                  simp at hq')
                (by
                  intro s a ha hPs
                  exact availStep_fact _ _ _ s a st.personnel ha hPs)
              exact main w q (by rw [hc]; simpa using hmem)

/-- What `_primary_pool` guarantees about each member: its people-map row
exists, has a never-scheduled-free duty, and records the watch as the
person's primary shift; the identifying attributes come from a base pool
entry unchanged. -/
theorem primary_pool_fact (info : DayAvail) (w : String) (pm : List (String × Person))
    (af : Bool) (q : PoolEntry) (h : q ∈ _primary_pool info w pm af) :
    (∃ row, lookupA pm (stripStr q.registry_id) = some row ∧
      DUTY_NEVER.contains (stripStr row.duty) = false ∧ stripStr row.primary_shift = w) ∧
    ∃ p ∈ (lookupA (poolsOf info) w).getD [],
      q.registry_id = p.registry_id ∧ q.rank = p.rank := by
  unfold _primary_pool at h
  have main := foldl_preserve
    (fun out => ∀ q ∈ out,
      (∃ row, lookupA pm (stripStr q.registry_id) = some row ∧
        DUTY_NEVER.contains (stripStr row.duty) = false ∧ stripStr row.primary_shift = w) ∧
      ∃ p ∈ (lookupA (poolsOf info) w).getD [],
        q.registry_id = p.registry_id ∧ q.rank = p.rank)
    (fun out p =>
      match lookupA pm (stripStr p.registry_id) with
      | none => out
      | some row =>
        let duty := stripStr row.duty
        if DUTY_NEVER.contains duty then out
        else if stripStr row.primary_shift ≠ w then out
        else out ++ [if af then { p with duty := duty } else p])
    ((lookupA (poolsOf info) w).getD []) []
    (by intro q hq; simp at hq)
    (by
      intro s a ha hP
      intro q hq
      simp only at hq
      cases hrow : lookupA pm (stripStr a.registry_id) with
      | none =>
        rw [hrow] at hq
        exact hP q hq
      | some row =>
        rw [hrow] at hq
        simp only at hq
        by_cases hduty : DUTY_NEVER.contains (stripStr row.duty) = true
        · rw [if_pos hduty] at hq
          exact hP q hq
        · rw [if_neg hduty] at hq
          by_cases hshift : stripStr row.primary_shift ≠ w
          · rw [if_pos hshift] at hq
            exact hP q hq
          · rw [if_neg hshift] at hq
            rcases List.mem_append.mp hq with ho | hn
            · exact hP q ho
            · have hqv : q = if af then { a with duty := stripStr row.duty } else a := by
                simpa using hn
              have hreg : q.registry_id = a.registry_id := by
                rw [hqv]
                by_cases haf : af = true <;> simp [haf]
              have hrank : q.rank = a.rank := by
                rw [hqv]
                by_cases haf : af = true <;> simp [haf]
              refine ⟨⟨row, ?_, ?_, ?_⟩, a, ha, hreg, hrank⟩
              · rw [hreg]
                exact hrow
              · rw [← Bool.not_eq_true]
                exact hduty
              · exact not_not.mp hshift)
  exact main q h

/-- Members of any `_primary_pool` taken from `day_availability` carry
attributes of a roster row. -/
theorem primary_rank_fact (st : SchedState) (d : Nat) (w : String)
    (pm : List (String × Person)) (af : Bool) (q : PoolEntry)
    (h : q ∈ _primary_pool (day_availability st d) w pm af) :
    RowFact st.personnel q := by
  obtain ⟨-, p, hp, hreg, hrank⟩ := primary_pool_fact (day_availability st d) w pm af q h
  obtain ⟨r, hr, hr1, hr2⟩ := day_avail_fact st d w p hp
  exact ⟨r, hr, by rw [hreg, hr1], by rw [hrank, hr2]⟩

/-! ## The rank-ceiling invariant -/

/-- Roster rows that agree on the (stripped) registry number agree on the
(stripped) rank.  This is the spec's "registryId (unique)" input contract,
weakened to exactly what the ceiling argument needs. -/
def RosterConsistent (st : SchedState) : Prop :=
  ∀ r1 ∈ st.personnel, ∀ r2 ∈ st.personnel,
    stripStr r1.registry_number = stripStr r2.registry_number →
    stripStr r1.rank = stripStr r2.rank

/-- Every ledger entry respects the monthly ceiling of its snapshot rank,
and its key and rank come from a roster row. -/
def CInvRank (st : SchedState) (c : Counters) : Prop :=
  ∀ rid e, lookupA c rid = some e →
    e.total ≤ (lookupA MAX_PER_MONTH (stripStr e.rank)).getD 99 ∧
    ∃ r ∈ st.personnel, rid = stripStr r.registry_number ∧ e.rank = stripStr r.rank

/-! ## `stripStr` is idempotent -/

theorem dropWhile_head_not (p : Char → Bool) :
    ∀ (l : List Char) (a : Char), (l.dropWhile p).head? = some a → p a = false := by
  intro l
  induction l with
  | nil => intro a h; simp at h
  | cons x xs ih =>
    intro a h
    by_cases hp : p x = true
    · rw [List.dropWhile_cons, if_pos hp] at h
      exact ih a h
    · rw [List.dropWhile_cons, if_neg hp] at h
      have hax : x = a := by simpa using h
      rw [← hax, ← Bool.not_eq_true]
      exact hp

theorem dropWhile_eq_self_of_head (p : Char → Bool) (l : List Char)
    (h : ∀ a, l.head? = some a → p a = false) : l.dropWhile p = l := by
  cases l with
  | nil => rfl
  | cons x xs =>
    have hx : p x = false := h x rfl
    rw [List.dropWhile_cons, hx]
    simp

theorem getLast?_dropWhile (p : Char → Bool) :
    ∀ (l : List Char), l.dropWhile p ≠ [] → (l.dropWhile p).getLast? = l.getLast? := by
  intro l
  induction l with
  | nil => intro h; simp [List.dropWhile] at h
  | cons x xs ih =>
    intro h
    by_cases hp : p x = true
    · rw [List.dropWhile_cons, if_pos hp] at h ⊢
      cases hxs : xs with
      | nil =>
        rw [hxs] at h
        simp [List.dropWhile] at h
      | cons y ys =>
        rw [← hxs]
        rw [ih h, hxs]
        exact List.getLast?_cons_cons.symm
    · rw [List.dropWhile_cons, if_neg hp]

/-- The character-list form of `stripStr`. -/
def stripL (l : List Char) : List Char :=
  ((l.dropWhile isSpaceChar).reverse.dropWhile isSpaceChar).reverse

theorem stripStr_data (s : String) : stripStr s = ⟨stripL s.data⟩ := rfl

theorem stripL_head_not (l : List Char) (a : Char) (h : (stripL l).head? = some a) :
    isSpaceChar a = false := by
  unfold stripL at h
  rw [List.head?_reverse] at h
  have hne : (l.dropWhile isSpaceChar).reverse.dropWhile isSpaceChar ≠ [] := by
    intro hnil
    rw [hnil] at h
    simp at h
  rw [getLast?_dropWhile _ _ hne, List.getLast?_reverse] at h
  exact dropWhile_head_not _ _ _ h

theorem stripL_last_not (l : List Char) (a : Char) (h : (stripL l).getLast? = some a) :
    isSpaceChar a = false := by
  unfold stripL at h
  rw [List.getLast?_reverse] at h
  exact dropWhile_head_not _ _ _ h

theorem stripL_idem (l : List Char) : stripL (stripL l) = stripL l := by
  have h1 : (stripL l).dropWhile isSpaceChar = stripL l :=
    dropWhile_eq_self_of_head _ _ (stripL_head_not l)
  have h2 : (stripL l).reverse.dropWhile isSpaceChar = (stripL l).reverse := by
    refine dropWhile_eq_self_of_head _ _ ?_
    intro a ha
    rw [List.head?_reverse] at ha
    exact stripL_last_not l a ha
  show (((stripL l).dropWhile isSpaceChar).reverse.dropWhile isSpaceChar).reverse = stripL l
  rw [h1, h2, List.reverse_reverse]

theorem stripStr_idem (s : String) : stripStr (stripStr s) = stripStr s := by
  rw [stripStr_data s, stripStr_data]
  show (⟨stripL (stripL s.data)⟩ : String) = ⟨stripL s.data⟩
  rw [stripL_idem]

theorem CInvRank_record (st : SchedState) (c : Counters) (p : PoolEntry) (w : String)
    (d : Nat) (da : String) (wo : Bool)
    (hRC : RosterConsistent st)
    (hR : CInvRank st c)
    (hok : _ok_person_on_date st p.registry_id (stripStr p.rank) da d c true true wo = true)
    (hrow : RowFact st.personnel p) :
    CInvRank st (recordAssignment st c p w d) := by
  intro rid e hlook
  unfold recordAssignment at hlook
  rcases lookupA_updateAssoc_cases hlook with ⟨hrid, hval⟩ | hold
  · obtain ⟨-, htot, -, -, -⟩ := (ok_iff st p.registry_id (stripStr p.rank) da d c wo).mp hok
    rw [stripStr_idem] at htot
    obtain ⟨rp, hrp, hrpreg, hrprank⟩ := hrow
    subst hval
    subst hrid
    cases hc : lookupA c p.registry_id with
    | none =>
      rw [hc] at htot
      simp only [Option.map_none', Option.getD_none] at htot
      constructor
      · rw [updatedEntry_total, updatedEntry_rank]
        simp only [hc, Option.getD_none]
        have hfr : (freshEntry p).rank = p.rank := rfl
        have hft : (freshEntry p).total = 0 := rfl
        rw [hfr, hft]
        omega
      · refine ⟨rp, hrp, hrpreg, ?_⟩
        rw [updatedEntry_rank]
        simp only [hc, Option.getD_none]
        exact hrprank
    | some e1 =>
      rw [hc] at htot
      simp only [Option.map_some', Option.getD_some] at htot
      obtain ⟨he1tot, re, hre, hrereg, hrerank⟩ := hR p.registry_id e1 hc
      have hrankeq : stripStr rp.rank = stripStr re.rank :=
        hRC rp hrp re hre (by rw [← hrpreg, ← hrereg])
      have hkeyeq : stripStr p.rank = stripStr e1.rank := by
        rw [hrprank, hrerank]
        exact congrArg stripStr hrankeq
      constructor
      · rw [updatedEntry_total, updatedEntry_rank]
        simp only [hc, Option.getD_some]
        rw [← hkeyeq]
        omega
      · refine ⟨re, hre, hrereg, ?_⟩
        rw [updatedEntry_rank]
        simp only [hc, Option.getD_some]
        exact hrerank
  · exact hR rid e hold

/-! ## Grid read/write lemmas -/

theorem keys_setGrid (g : Grid) (w : String) (d : Nat) (v : Slot) :
    (setGrid g w d v).map Prod.fst = g.map Prod.fst := by
  unfold setGrid
  exact keys_mapIfKey g w (fun m => updateAssoc m d v)

theorem gridGet_setGrid_self (g : Grid) (w : String) (d : Nat) (v : Slot)
    (hk : w ∈ g.map Prod.fst) : gridGet (setGrid g w d v) w d = some v := by
  obtain ⟨m, hm⟩ := lookupA_isSome_of_mem_keys hk
  unfold gridGet setGrid
  rw [lookupA_mapIfKey_eq g w (fun mm => updateAssoc mm d v), hm]
  simp [lookupA_updateAssoc_self]

theorem gridGet_setGrid_other (g : Grid) (w : String) (d : Nat) (v : Slot)
    (w' : String) (d' : Nat) (h : w' ≠ w ∨ d' ≠ d) :
    gridGet (setGrid g w d v) w' d' = gridGet g w' d' := by
  unfold gridGet setGrid
  by_cases hw : w' = w
  · subst hw
    have hd : d' ≠ d := h.resolve_left (fun hh => hh rfl)
    rw [lookupA_mapIfKey_eq g w' (fun mm => updateAssoc mm d v)]
    cases hm : lookupA g w' with
    | none => simp
    | some m => simp [lookupA_updateAssoc_ne m d d' v hd]
  · rw [lookupA_mapIfKey_ne g w (fun mm => updateAssoc mm d v) w' hw]

theorem gridGet_setGrid_cases {g : Grid} {w : String} {d : Nat} {v : Slot}
    {w' : String} {d' : Nat} {s : Slot}
    (h : gridGet (setGrid g w d v) w' d' = some s) :
    (w' = w ∧ d' = d ∧ s = v) ∨ gridGet g w' d' = some s := by
  by_cases hw : w' = w
  · by_cases hd : d' = d
    · subst hw
      subst hd
      unfold gridGet setGrid at h
      rw [lookupA_mapIfKey_eq g w' (fun mm => updateAssoc mm d' v)] at h
      cases hm : lookupA g w' with
      | none =>
        rw [hm] at h
        simp at h
      | some m =>
        rw [hm] at h
        simp only [Option.map_some'] at h
        rw [lookupA_updateAssoc_self] at h
        exact Or.inl ⟨rfl, rfl, (Option.some_inj.mp h).symm⟩
    · exact Or.inr (by rw [← gridGet_setGrid_other g w d v w' d' (Or.inr hd)]; exact h)
  · exact Or.inr (by rw [← gridGet_setGrid_other g w d v w' d' (Or.inl hw)]; exact h)

theorem gridGet_none_of_no_key {g : Grid} {w : String} {d : Nat}
    (h : ¬(w ∈ g.map Prod.fst)) : gridGet g w d = none := by
  unfold gridGet
  cases hm : lookupA g w with
  | none => rfl
  | some m =>
    exact absurd (by
      have := lookupA_mem hm
      exact List.mem_map.mpr ⟨(w, m), this, rfl⟩) h

/-! ## What a successful pick satisfies -/

theorem candidate_ok_ok {st : SchedState} {d : Nat} {c : Counters} {used : List String}
    {da : String} {wo : Bool} {p : PoolEntry} (h : candidate_ok st d c used da wo p = true) :
    _ok_person_on_date st p.registry_id (stripStr p.rank) da d c true true wo = true :=
  ((Bool.and_eq_true _ _).mp h).2

theorem candidate_ok_not_used {st : SchedState} {d : Nat} {c : Counters} {used : List String}
    {da : String} {wo : Bool} {p : PoolEntry} (h : candidate_ok st d c used da wo p = true) :
    used.contains p.registry_id = false := by
  have h1 := ((Bool.and_eq_true _ _).mp h).1
  simpa using h1

theorem pick_af_cases {st : SchedState} {d : Nat} {c : Counters} {used : List String}
    {reg wdo : List PoolEntry} {p : PoolEntry}
    (h : pick_af st d c used reg wdo = some p) :
    (candidate_ok st d c used ("") false p = true ∧ p ∈ reg) ∨
    (candidate_ok st d c used ("weekday_only") true p = true ∧ p ∈ wdo) := by
  unfold pick_af at h
  cases ha : af_phase_a st d c used reg with
  | some q =>
    rw [ha] at h
    simp only at h
    obtain rfl := Option.some_inj.mp h
    unfold af_phase_a at ha
    exact Or.inl ⟨List.find?_some ha,
      (mem_sortedBy _ reg q).mp (List.mem_of_find?_eq_some ha)⟩
  | none =>
    rw [ha] at h
    simp only at h
    unfold af_phase_b at h
    exact Or.inr ⟨List.find?_some h,
      (mem_sortedBy _ wdo p).mp (List.mem_of_find?_eq_some h)⟩

/-! ## Per-day preservation of ledger predicates -/

/-- The shape of the in-port branch of `process_day`, exposed for proofs. -/
theorem process_day_eq_inport (st : SchedState) (ship : List (Nat × String))
    (pm : List (String × Person)) (acc : Grid × Counters) (d : Nat)
    (hstat : ¬(stripStr (lowerStr (shipStatusOf ship d)) ≠ "in port")) :
    process_day st ship pm acc d =
      (let info := day_availability st d
       let pool_af_all := _primary_pool info W_AF pm true
       let p_weekday_only := pool_af_all.filter
         (fun p => DUTY_WEEKDAY_ONLY.contains (stripStr p.duty))
       let p_regular := pool_af_all.filter
         (fun p => !(DUTY_WEEKDAY_ONLY.contains (stripStr p.duty)))
       let picked_af := pick_af st d acc.2 [] p_regular p_weekday_only
       let g1 := setGrid acc.1 W_AF d (slotOfPick picked_af)
       let c1 := match picked_af with
         | some p => recordAssignment st acc.2 p W_AF d
         | none => acc.2
       let used1 : List String := match picked_af with
         | some p => [p.registry_id]
         | none => []
       let s := SECONDARY_WATCHES.foldl (step_secondary st d info pm) (g1, c1, used1)
       (s.1, s.2.1)) := by
  unfold process_day
  rw [if_neg hstat]

theorem process_day_eq_sea (st : SchedState) (ship : List (Nat × String))
    (pm : List (String × Person)) (acc : Grid × Counters) (d : Nat)
    (hstat : stripStr (lowerStr (shipStatusOf ship d)) ≠ "in port") :
    process_day st ship pm acc d =
      (WATCH_TYPES.foldl (fun g w => setGrid g w d Slot.sea) acc.1, acc.2) := by
  unfold process_day
  rw [if_pos hstat]

theorem secondary_fold_counters (st : SchedState) (d : Nat)
    (pm : List (String × Person)) (P : Counters → Prop)
    (hstep : ∀ c p w da wo,
      _ok_person_on_date st p.registry_id (stripStr p.rank) da d c true true wo = true →
      RowFact st.personnel p → P c → P (recordAssignment st c p w d))
    (ws : List String) (s0 : Grid × Counters × List String) (h0 : P s0.2.1) :
    P ((ws.foldl (step_secondary st d (day_availability st d) pm) s0).2.1) := by
  have main := foldl_preserve (fun s : Grid × Counters × List String => P s.2.1)
    (step_secondary st d (day_availability st d) pm) ws s0 h0
    (by
      intro s a _ hPs
      unfold step_secondary
      cases hfind : (_sort_fair_non_af (_primary_pool (day_availability st d) a pm false) s.2.1).find?
          (candidate_ok st d s.2.1 s.2.2 ("") false) with
      | none => simpa [hfind] using hPs
      | some p =>
        simp only [hfind]
        have hco := List.find?_some hfind
        have hmem : p ∈ _primary_pool (day_availability st d) a pm false :=
          (mem_sortedBy _ _ p).mp (List.mem_of_find?_eq_some hfind)
        exact hstep s.2.1 p a ("") false (candidate_ok_ok hco)
          (primary_rank_fact st d a pm false p hmem) hPs)
  exact main

theorem process_day_counters (st : SchedState) (ship : List (Nat × String))
    (pm : List (String × Person)) (P : Counters → Prop)
    (acc : Grid × Counters) (d : Nat)
    (hstep : ∀ c p w da wo,
      _ok_person_on_date st p.registry_id (stripStr p.rank) da d c true true wo = true →
      RowFact st.personnel p → P c → P (recordAssignment st c p w d))
    (h : P acc.2) : P ((process_day st ship pm acc d).2) := by
  by_cases hstat : stripStr (lowerStr (shipStatusOf ship d)) ≠ "in port"
  · rw [process_day_eq_sea st ship pm acc d hstat]
    exact h
  · rw [process_day_eq_inport st ship pm acc d hstat]
    show P ((SECONDARY_WATCHES.foldl
      (step_secondary st d (day_availability st d) pm)
      (setGrid acc.1 W_AF d (slotOfPick (pick_af st d acc.2 []
          ((_primary_pool (day_availability st d) W_AF pm true).filter
            (fun p => !(DUTY_WEEKDAY_ONLY.contains (stripStr p.duty))))
          ((_primary_pool (day_availability st d) W_AF pm true).filter
            (fun p => DUTY_WEEKDAY_ONLY.contains (stripStr p.duty))))),
        (match pick_af st d acc.2 []
          ((_primary_pool (day_availability st d) W_AF pm true).filter
            (fun p => !(DUTY_WEEKDAY_ONLY.contains (stripStr p.duty))))
          ((_primary_pool (day_availability st d) W_AF pm true).filter
            (fun p => DUTY_WEEKDAY_ONLY.contains (stripStr p.duty))) with
         | some p => recordAssignment st acc.2 p W_AF d
         | none => acc.2),
        (match pick_af st d acc.2 []
          ((_primary_pool (day_availability st d) W_AF pm true).filter
            (fun p => !(DUTY_WEEKDAY_ONLY.contains (stripStr p.duty))))
          ((_primary_pool (day_availability st d) W_AF pm true).filter
            (fun p => DUTY_WEEKDAY_ONLY.contains (stripStr p.duty))) with
         | some p => [p.registry_id]
         | none => ([] : List String)))).2.1)
    apply secondary_fold_counters st d pm P hstep
    cases hpick : pick_af st d acc.2 []
        ((_primary_pool (day_availability st d) W_AF pm true).filter
          (fun p => !(DUTY_WEEKDAY_ONLY.contains (stripStr p.duty))))
        ((_primary_pool (day_availability st d) W_AF pm true).filter
          (fun p => DUTY_WEEKDAY_ONLY.contains (stripStr p.duty))) with
    | none => simpa using h
    | some p =>
      simp only
      rcases pick_af_cases hpick with ⟨hco, hmem⟩ | ⟨hco, hmem⟩
      · have hpool : p ∈ _primary_pool (day_availability st d) W_AF pm true :=
          (List.mem_filter.mp hmem).1
        exact hstep acc.2 p W_AF ("") false (candidate_ok_ok hco)
          (primary_rank_fact st d W_AF pm true p hpool) h
      · have hpool : p ∈ _primary_pool (day_availability st d) W_AF pm true :=
          (List.mem_filter.mp hmem).1
        exact hstep acc.2 p W_AF ("weekday_only") true (candidate_ok_ok hco)
          (primary_rank_fact st d W_AF pm true p hpool) h

/-! ## Month-level preservation -/

theorem month_counters (st : SchedState) (P : Counters → Prop)
    (hstep : ∀ c p w da wo d,
      _ok_person_on_date st p.registry_id (stripStr p.rank) da d c true true wo = true →
      RowFact st.personnel p → P c → P (recordAssignment st c p w d))
    (hinit : P []) : P (make_month_schedule_all st).counters := by
  unfold make_month_schedule_all
  simp only []
  split
  · simpa using hinit
  · split
    · simpa using hinit
    · rename_i shipRows heq
      show P ((sortedBy natLeB (shipRows.map (fun r => r.1))).foldl
        (process_day st shipRows (_load_people_map st))
        (WATCH_TYPES.map (fun w => (w, [])), [])).2
      apply foldl_preserve (fun acc : Grid × Counters => P acc.2)
      · simpa using hinit
      · intro s a _ hs
        exact process_day_counters st shipRows (_load_people_map st) P s a
          (fun c p w da wo hok hrow hP => hstep c p w da wo a hok hrow hP) hs

/-- C1 (rest-gap invariant): in the final ledger of any run of
`make_month_schedule_all`, any two distinct dates in one person's
assigned-date set differ by at least 3 calendar days in either direction. -/
theorem claim_C1_rest_gap (st : SchedState) (rid : String) (e : Entry)
    (h : lookupA (make_month_schedule_all st).counters rid = some e) :
    ∀ d1 ∈ e.dates, ∀ d2 ∈ e.dates, d1 ≠ d2 →
      3 ≤ ((d1 : Int) - (d2 : Int)).natAbs := by
  have hm : CInv0 st (make_month_schedule_all st).counters :=
    month_counters st (CInv0 st)
      (fun c p w da wo d hok _ hP => CInv0_record st c p w d da wo hP hok)
      (fun rid' e' h' => by simp [lookupA] at h')
  obtain ⟨-, -, -, -, hgap, -⟩ := hm rid e h
  exact hgap

/-- C2 (monthly caps): in the final ledger of any run over a roster whose
rows agree on rank whenever they agree on registry number (the spec's
unique-registry-id input contract), every entry has weekend count at most
2, holiday count (`hol_real`, the counter consulted by the holiday cap) at
most 1, and total at most the `MAX_PER_MONTH` ceiling of its rank, with
the permissive default 99 for ranks absent from the table. -/
theorem claim_C2_monthly_caps (st : SchedState) (hRC : RosterConsistent st)
    (rid : String) (e : Entry)
    (h : lookupA (make_month_schedule_all st).counters rid = some e) :
    e.wknd ≤ 2 ∧ e.hol_real ≤ 1 ∧
    e.total ≤ (lookupA MAX_PER_MONTH (stripStr e.rank)).getD 99 := by
  have hm : CInv0 st (make_month_schedule_all st).counters ∧
      CInvRank st (make_month_schedule_all st).counters := by
    have := month_counters st
      (fun c => CInv0 st c ∧ CInvRank st c)
      (fun c p w da wo d hok hrow hP =>
        ⟨CInv0_record st c p w d da wo hP.1 hok,
         CInvRank_record st c p w d da wo hRC hP.2 hok hrow⟩)
      ⟨fun rid' e' h' => by simp [lookupA] at h',
       fun rid' e' h' => by simp [lookupA] at h'⟩
    exact this
  obtain ⟨hwknd, hhol, -, -, -, -⟩ := hm.1 rid e h
  obtain ⟨hceil, -⟩ := hm.2 rid e h
  exact ⟨hwknd, hhol, hceil⟩

/-- C9 (holiday-cap counting): one ledger update increments `hol_real`
exactly when the date is in the month's declared holiday set, increments
`wknd` exactly when the date is a weekend, and increments the separate
holiday-like counter `hol` exactly when the date is a holiday or weekend;
in particular an assignment on a weekend that is not a declared holiday
bumps `wknd` and `hol` but leaves the holiday-cap counter `hol_real`
unchanged. -/
theorem claim_C9_holiday_counters (st : SchedState) (counters : Counters)
    (p : PoolEntry) (w : String) (d : Nat) :
    ∃ e', lookupA (recordAssignment st counters p w d) p.registry_id = some e' ∧
      (let e0 := (lookupA counters p.registry_id).getD (freshEntry p)
       e'.hol_real = e0.hol_real + (if is_holiday st d then 1 else 0) ∧
       e'.wknd = e0.wknd + (if is_weekend d then 1 else 0) ∧
       e'.hol = e0.hol + (if _is_holiday_like st d then 1 else 0)) := by
  refine ⟨updatedEntry st w d ((lookupA counters p.registry_id).getD (freshEntry p)),
    ?_, ?_, ?_, ?_⟩
  · unfold recordAssignment
    exact lookupA_updateAssoc_self _ _ _
  · rw [updatedEntry_hol_real]
    by_cases hb : is_holiday st d = true <;> simp [hb]
  · rw [updatedEntry_wknd]
    by_cases hb : is_weekend d = true <;> simp [hb]
  · rw [updatedEntry_hol]
    by_cases hb : _is_holiday_like st d = true <;> simp [hb]

/-! ## Concrete inputs used by witnesses and counterexamples -/

/-- An officer eligible for the priority watch (rank Ensign, primary ΑΦ). -/
def wPerson1 : Person :=
  { registry_number := "100", name := "Alpha", rank := "Ensign", specialty := "FW",
    duty := "Operations Director", primary_shift := "ΑΦ" }

/-- Four consecutive in-port weekdays (ordinals 8-11 are Mon-Thu), one
eligible person: they get assigned on day 8, sit out the 2-day rest gap,
and get assigned again on day 11. -/
def wState1 : SchedState :=
  { personnel := [wPerson1],
    ship_status := some [(8, "in port"), (9, "in port"), (10, "in port"), (11, "in port")],
    holidays := [], leave := [], cannot := [], prefer := [] }

/-- The final ledger entry of `wPerson1` in `wState1` (two assignments,
on days 8 and 11). -/
def wEntry1 : Entry :=
  { name := "Alpha", rank := "Ensign", specialty := "FW",
    total := 2, wknd := 0, hol := 0, hol_real := 0, dates := [8, 11],
    per_watch := [("ΑΦ", 2), ("ΥΦ", 0), ("ΥΦΜ", 0), ("ΒΥΦΜ", 0), ("ΒΥΦ", 0)],
    hol_watch := [("ΑΦ", 0), ("ΥΦ", 0), ("ΥΦΜ", 0), ("ΒΥΦΜ", 0), ("ΒΥΦ", 0)] }

/-- Witness for C1: a concrete run whose ledger has an entry with two
dates, to which the rest-gap theorem applies. -/
theorem claim_C1_witness :
    lookupA (make_month_schedule_all wState1).counters ("100") = some wEntry1 ∧
    (∀ d1 ∈ wEntry1.dates, ∀ d2 ∈ wEntry1.dates, d1 ≠ d2 →
      3 ≤ ((d1 : Int) - (d2 : Int)).natAbs) :=
  ⟨by decide, claim_C1_rest_gap wState1 ("100") wEntry1 (by decide)⟩

/-- Witness for C2: the same concrete run satisfies the roster-consistency
hypothesis, and the cap theorem applies to its ledger entry. -/
theorem claim_C2_witness :
    RosterConsistent wState1 ∧
    (wEntry1.wknd ≤ 2 ∧ wEntry1.hol_real ≤ 1 ∧
      wEntry1.total ≤ (lookupA MAX_PER_MONTH (stripStr wEntry1.rank)).getD 99) :=
  ⟨by unfold RosterConsistent; decide,
   claim_C2_monthly_caps wState1 (by unfold RosterConsistent; decide) ("100") wEntry1
     (by decide)⟩

/-! ## C6: missing-data failure semantics -/

/-- C6 (amended): with an empty people map the engine returns the fully
empty result whose `by_watch` is the *empty dict* (no per-watch keys at
all); only the missing-ship-status abort returns five watches each mapped
to an empty dict. -/
theorem claim_C6_empty_results (st : SchedState) :
    (_load_people_map st = [] →
      make_month_schedule_all st = { dates := [], by_watch := [], counters := [] }) ∧
    (_load_people_map st ≠ [] → st.ship_status = none →
      make_month_schedule_all st =
        { dates := [], by_watch := WATCH_TYPES.map (fun w => (w, [])), counters := [] }) := by
  constructor
  · intro h
    unfold make_month_schedule_all
    have hb : (_load_people_map st).isEmpty = true := List.isEmpty_iff.mpr h
    simp [hb]
  · intro h hship
    unfold make_month_schedule_all
    have hb : (_load_people_map st).isEmpty = false := List.isEmpty_eq_false.mpr h
    simp [hb, hship]

/-- Empty roster but a perfectly good ship-status file. -/
def cState6 : SchedState :=
  { personnel := [], ship_status := some [(8, "in port")],
    holidays := [], leave := [], cannot := [], prefer := [] }

/-- Roster present but no ship-status file for the month. -/
def wState6b : SchedState :=
  { personnel := [wPerson1], ship_status := none,
    holidays := [], leave := [], cannot := [], prefer := [] }

/-- Counterexample for C6 as stated: with an absent/empty roster the
result's `by_watch` contains no entry for the priority watch at all, so it
is not "empty per-watch maps for all five watches". -/
theorem claim_C6_counterexample :
    (make_month_schedule_all cState6).dates = [] ∧
    (make_month_schedule_all cState6).counters = [] ∧
    lookupA (make_month_schedule_all cState6).by_watch W_AF = none := by
  decide

/-- Witness for C6 (amended): both abort branches hit at concrete inputs. -/
theorem claim_C6_witness :
    (_load_people_map cState6 = [] ∧
      make_month_schedule_all cState6 = { dates := [], by_watch := [], counters := [] }) ∧
    (_load_people_map wState6b ≠ [] ∧ wState6b.ship_status = none ∧
      make_month_schedule_all wState6b =
        { dates := [], by_watch := WATCH_TYPES.map (fun w => (w, [])), counters := [] }) :=
  ⟨⟨by decide, (claim_C6_empty_results cState6).1 (by decide)⟩,
   ⟨by decide, rfl, (claim_C6_empty_results wState6b).2 (by decide) rfl⟩⟩

/-! ## C7: at-sea days are inert -/

/-- All five watches show the "at sea" marker on date `d`. -/
def SeaProp (g : Grid) (d : Nat) : Prop :=
  ∀ w ∈ WATCH_TYPES, gridGet g w d = some Slot.sea

theorem fold_setGrid_frame_w (d : Nat) (v : Slot) (w' : String) (d' : Nat) :
    ∀ (ws : List String) (g : Grid), w' ∉ ws →
      gridGet (ws.foldl (fun g' x => setGrid g' x d v) g) w' d' = gridGet g w' d' := by
  intro ws
  induction ws with
  | nil => intro g _; rfl
  | cons a t ih =>
    intro g h
    have ha : w' ≠ a := fun hh => h (hh ▸ List.mem_cons_self a t)
    have ht : w' ∉ t := fun hh => h (List.mem_cons_of_mem a hh)
    rw [List.foldl_cons, ih (setGrid g a d v) ht,
      gridGet_setGrid_other g a d v w' d' (Or.inl ha)]

theorem fold_setGrid_frame_d (d : Nat) (v : Slot) (w' : String) (d' : Nat) (hd : d' ≠ d) :
    ∀ (ws : List String) (g : Grid),
      gridGet (ws.foldl (fun g' x => setGrid g' x d v) g) w' d' = gridGet g w' d' := by
  intro ws
  induction ws with
  | nil => intro g; rfl
  | cons a t ih =>
    intro g
    rw [List.foldl_cons, ih (setGrid g a d v),
      gridGet_setGrid_other g a d v w' d' (Or.inr hd)]

theorem keys_fold_setGrid (d : Nat) (v : Slot) :
    ∀ (ws : List String) (g : Grid),
      (ws.foldl (fun g' x => setGrid g' x d v) g).map Prod.fst = g.map Prod.fst := by
  intro ws
  induction ws with
  | nil => intro g; rfl
  | cons a t ih =>
    intro g
    rw [List.foldl_cons, ih (setGrid g a d v), keys_setGrid]

theorem fold_setGrid_get (d : Nat) (v : Slot) (w : String) :
    ∀ (ws : List String) (g : Grid), w ∈ ws → (∀ x ∈ ws, x ∈ g.map Prod.fst) →
      gridGet (ws.foldl (fun g' x => setGrid g' x d v) g) w d = some v := by
  intro ws
  induction ws with
  | nil => intro g h _; simp at h
  | cons a t ih =>
    intro g hw hkeys
    rw [List.foldl_cons]
    by_cases hwt : w ∈ t
    · refine ih (setGrid g a d v) hwt ?_
      intro x hx
      rw [keys_setGrid]
      exact hkeys x (List.mem_cons_of_mem a hx)
    · have hwa : w = a := (List.mem_cons.mp hw).resolve_right hwt
      subst hwa
      rw [fold_setGrid_frame_w d v w d t (setGrid g w d v) hwt]
      exact gridGet_setGrid_self g w d v (hkeys w (List.mem_cons_self _ _))

theorem step_secondary_grid_frame (st : SchedState) (d : Nat) (info : DayAvail)
    (pm : List (String × Person)) (s : Grid × Counters × List String) (w : String)
    (w' : String) (d' : Nat) (h : w' ≠ w ∨ d' ≠ d) :
    gridGet (step_secondary st d info pm s w).1 w' d' = gridGet s.1 w' d' := by
  unfold step_secondary
  cases hfind : (_sort_fair_non_af (_primary_pool info w pm false) s.2.1).find?
      (candidate_ok st d s.2.1 s.2.2 ("") false) with
  | none => simpa [hfind] using gridGet_setGrid_other s.1 w d _ w' d' h
  | some p => simpa [hfind] using gridGet_setGrid_other s.1 w d _ w' d' h

theorem keys_step_secondary (st : SchedState) (d : Nat) (info : DayAvail)
    (pm : List (String × Person)) (s : Grid × Counters × List String) (w : String) :
    ((step_secondary st d info pm s w).1).map Prod.fst = (s.1).map Prod.fst := by
  unfold step_secondary
  cases hfind : (_sort_fair_non_af (_primary_pool info w pm false) s.2.1).find?
      (candidate_ok st d s.2.1 s.2.2 ("") false) with
  | none => simpa [hfind] using keys_setGrid s.1 w d _
  | some p => simpa [hfind] using keys_setGrid s.1 w d _

theorem keys_secondary_fold (st : SchedState) (d : Nat) (info : DayAvail)
    (pm : List (String × Person)) (ws : List String)
    (s : Grid × Counters × List String) :
    ((ws.foldl (step_secondary st d info pm) s).1).map Prod.fst = (s.1).map Prod.fst := by
  have main := foldl_preserve
    (fun s' : Grid × Counters × List String => (s'.1).map Prod.fst = (s.1).map Prod.fst)
    (step_secondary st d info pm) ws s rfl
    (by
      intro s' a _ hs'
      rw [keys_step_secondary]
      exact hs')
  exact main

theorem keys_process_day (st : SchedState) (ship : List (Nat × String))
    (pm : List (String × Person)) (acc : Grid × Counters) (d : Nat) :
    ((process_day st ship pm acc d).1).map Prod.fst = (acc.1).map Prod.fst := by
  by_cases hstat : stripStr (lowerStr (shipStatusOf ship d)) ≠ "in port"
  · rw [process_day_eq_sea st ship pm acc d hstat]
    exact keys_fold_setGrid d Slot.sea WATCH_TYPES acc.1
  · rw [process_day_eq_inport st ship pm acc d hstat]
    show ((SECONDARY_WATCHES.foldl (step_secondary st d (day_availability st d) pm)
      (setGrid acc.1 W_AF d _, _, _)).1).map Prod.fst = (acc.1).map Prod.fst
    rw [keys_secondary_fold]
    exact keys_setGrid acc.1 W_AF d _

theorem process_day_grid_frame (st : SchedState) (ship : List (Nat × String))
    (pm : List (String × Person)) (acc : Grid × Counters) (d : Nat)
    (w' : String) (d' : Nat) (hd : d' ≠ d) :
    gridGet (process_day st ship pm acc d).1 w' d' = gridGet acc.1 w' d' := by
  by_cases hstat : stripStr (lowerStr (shipStatusOf ship d)) ≠ "in port"
  · rw [process_day_eq_sea st ship pm acc d hstat]
    exact fold_setGrid_frame_d d Slot.sea w' d' hd WATCH_TYPES acc.1
  · rw [process_day_eq_inport st ship pm acc d hstat]
    have main : ∀ (s0 : Grid × Counters × List String),
        gridGet s0.1 w' d' = gridGet acc.1 w' d' →
        gridGet ((SECONDARY_WATCHES.foldl
          (step_secondary st d (day_availability st d) pm) s0).1) w' d'
          = gridGet acc.1 w' d' := by
      intro s0 h0
      exact foldl_preserve
        (fun s : Grid × Counters × List String =>
          gridGet s.1 w' d' = gridGet acc.1 w' d')
        (step_secondary st d (day_availability st d) pm) SECONDARY_WATCHES s0 h0
        (by
          intro s a _ hs
          rw [step_secondary_grid_frame st d (day_availability st d) pm s a w' d'
            (Or.inr hd)]
          exact hs)
    exact main _ (gridGet_setGrid_other acc.1 W_AF d _ w' d' (Or.inr hd))

theorem day_sea (st : SchedState) (ship : List (Nat × String))
    (pm : List (String × Person)) (acc : Grid × Counters) (d : Nat)
    (hstat : stripStr (lowerStr (shipStatusOf ship d)) ≠ "in port")
    (hkeys : (acc.1).map Prod.fst = WATCH_TYPES) :
    SeaProp (process_day st ship pm acc d).1 d := by
  rw [process_day_eq_sea st ship pm acc d hstat]
  intro w hw
  refine fold_setGrid_get d Slot.sea w WATCH_TYPES acc.1 hw ?_
  intro x hx
  rw [hkeys]
  exact hx

theorem fold_preserves_sea (st : SchedState) (ship : List (Nat × String))
    (pm : List (String × Person)) (d0 : Nat)
    (hbad : stripStr (lowerStr (shipStatusOf ship d0)) ≠ "in port")
    (todo : List Nat) (acc : Grid × Counters)
    (hkeys : (acc.1).map Prod.fst = WATCH_TYPES) (hsea : SeaProp acc.1 d0) :
    SeaProp ((todo.foldl (process_day st ship pm) acc).1) d0 := by
  have main := foldl_preserve
    (fun acc' : Grid × Counters =>
      (acc'.1).map Prod.fst = WATCH_TYPES ∧ SeaProp acc'.1 d0)
    (process_day st ship pm) todo acc ⟨hkeys, hsea⟩
    (by
      intro s a _ hs
      refine ⟨by rw [keys_process_day]; exact hs.1, ?_⟩
      by_cases hda : d0 = a
      · subst hda
        exact day_sea st ship pm s d0 hbad hs.1
      · intro w hw
        rw [process_day_grid_frame st ship pm s a w d0 hda]
        exact hs.2 w hw)
  exact main.2

theorem foldl_sea (st : SchedState) (ship : List (Nat × String))
    (pm : List (String × Person)) (d0 : Nat)
    (hbad : stripStr (lowerStr (shipStatusOf ship d0)) ≠ "in port") :
    ∀ (todo : List Nat) (acc : Grid × Counters),
      (acc.1).map Prod.fst = WATCH_TYPES → d0 ∈ todo →
      SeaProp ((todo.foldl (process_day st ship pm) acc).1) d0 := by
  intro todo
  induction todo with
  | nil => intro acc _ h; simp at h
  | cons a t ih =>
    intro acc hkeys hmem
    rw [List.foldl_cons]
    by_cases hda : d0 = a
    · subst hda
      exact fold_preserves_sea st ship pm d0 hbad t (process_day st ship pm acc d0)
        (by rw [keys_process_day]; exact hkeys)
        (day_sea st ship pm acc d0 hbad hkeys)
    · have hmt : d0 ∈ t := by
        rcases List.mem_cons.mp hmem with h1 | h1
        · exact absurd h1 hda
        · exact h1
      exact ih (process_day st ship pm acc a)
        (by rw [keys_process_day]; exact hkeys) hmt

/-- C7 (at-sea days are inert): for any date of the run whose recorded
ship status is not "in port" (after lower-casing and stripping), the final
grid shows the "at sea" marker for all five watches on that date, and
processing that date leaves the ledger untouched. -/
theorem claim_C7_at_sea_inert (st : SchedState) (shipRows : List (Nat × String))
    (hship : st.ship_status = some shipRows) (d : Nat)
    (hbad : stripStr (lowerStr (shipStatusOf shipRows d)) ≠ "in port") :
    (d ∈ (make_month_schedule_all st).dates →
      ∀ w ∈ WATCH_TYPES,
        gridGet (make_month_schedule_all st).by_watch w d = some Slot.sea) ∧
    (∀ g c, (process_day st shipRows (_load_people_map st) (g, c) d).2 = c) := by
  constructor
  · intro hmem w hw
    unfold make_month_schedule_all at hmem ⊢
    simp only [] at hmem ⊢
    by_cases hpm : (_load_people_map st).isEmpty = true
    · rw [if_pos hpm] at hmem
      simp at hmem
    · rw [if_neg hpm] at hmem ⊢
      rw [hship] at hmem ⊢
      simp only [] at hmem ⊢
      refine foldl_sea st shipRows (_load_people_map st) d hbad _ _ ?_ hmem w hw
      rfl
  · intro g c
    rw [process_day_eq_sea st shipRows (_load_people_map st) (g, c) d hbad]

/-- One in-port day followed by one at-sea day. -/
def wState7 : SchedState :=
  { personnel := [wPerson1],
    ship_status := some [(8, "in port"), (9, "at sea")],
    holidays := [], leave := [], cannot := [], prefer := [] }

/-- Witness for C7: the at-sea day 9 of `wState7`. -/
theorem claim_C7_witness :
    ((9 : Nat) ∈ (make_month_schedule_all wState7).dates ∧
      stripStr (lowerStr (shipStatusOf [(8, "in port"), (9, "at sea")] 9)) ≠ "in port") ∧
    (∀ w ∈ WATCH_TYPES,
      gridGet (make_month_schedule_all wState7).by_watch w 9 = some Slot.sea) ∧
    (∀ g c, (process_day wState7 [(8, "in port"), (9, "at sea")]
      (_load_people_map wState7) (g, c) 9).2 = c) :=
  ⟨⟨by decide, by decide⟩,
   (claim_C7_at_sea_inert wState7 [(8, "in port"), (9, "at sea")] rfl 9 (by decide)).1
     (by decide),
   (claim_C7_at_sea_inert wState7 [(8, "in port"), (9, "at sea")] rfl 9 (by decide)).2⟩

/-! ## C5: weekday-only fallback for the priority watch -/

/-- C5 (weekday-only fallback): Phase B is consulted only when Phase A
selects nobody; any candidate returned by Phase B was admitted with the
weekday-only restriction, so only on a weekday; and on a weekend date with
an empty regular partition the whole AF pick is `none`, so the slot that
`process_day` records for the priority watch is the "no one available"
marker. -/
theorem claim_C5_weekday_fallback (st : SchedState) (d : Nat) (c : Counters)
    (used : List String) (p_regular p_weekday_only : List PoolEntry) :
    (∀ p, af_phase_a st d c used p_regular = some p →
      pick_af st d c used p_regular p_weekday_only = some p) ∧
    (af_phase_a st d c used p_regular = none →
      pick_af st d c used p_regular p_weekday_only
        = af_phase_b st d c used p_weekday_only) ∧
    (∀ p, af_phase_b st d c used p_weekday_only = some p → is_weekday d = true) ∧
    (is_weekend d = true → p_regular = [] →
      pick_af st d c used p_regular p_weekday_only = none) := by
  refine ⟨?_, ?_, ?_, ?_⟩
  · intro p h
    unfold pick_af
    rw [h]
  · intro h
    unfold pick_af
    rw [h]
  · intro p h
    unfold af_phase_b at h
    have hco := List.find?_some h
    have hok := candidate_ok_ok hco
    by_contra hwd
    have hwd' : is_weekday d = false := by
      rw [← Bool.not_eq_true]
      exact hwd
    unfold _ok_person_on_date at hok
    rw [hwd'] at hok
    simp at hok
  · intro hwk hreg
    have ha : af_phase_a st d c used p_regular = none := by
      unfold af_phase_a
      rw [hreg]
      rfl
    unfold pick_af
    rw [ha]
    unfold af_phase_b
    rw [List.find?_eq_none]
    intro p _
    unfold candidate_ok _ok_person_on_date
    have hwd : is_weekday d = false := by
      unfold is_weekday
      rw [hwk]
      rfl
    rw [hwd]
    simp

/-- The weekday-restricted pool entry of `wState5` (`af_mode` fills duty). -/
def xoEntry : PoolEntry :=
  { registry_id := "300", name := "XOName", rank := "Lieutenant", specialty := "FW",
    preferred := false, duty := "Executive Officer" }

/-- An Executive Officer with primary watch ΑΦ. -/
def wPersonXO : Person :=
  { registry_number := "300", name := "XOName", rank := "Lieutenant", specialty := "FW",
    duty := "Executive Officer", primary_shift := "ΑΦ" }

/-- A Tuesday (9) and a Saturday (13), both in port; the only eligible
person is weekday-restricted. -/
def wState5 : SchedState :=
  { personnel := [wPersonXO],
    ship_status := some [(9, "in port"), (13, "in port")],
    holidays := [], leave := [], cannot := [], prefer := [] }

/-- Witness for C5: the weekday-only candidate is picked on the Tuesday
and the priority watch resolves to "no one available" on the Saturday. -/
theorem claim_C5_witness :
    (is_weekend 13 = true ∧
      pick_af wState5 13 [] [] [] [xoEntry] = none) ∧
    gridGet (make_month_schedule_all wState5).by_watch W_AF 13 = some Slot.nobody ∧
    gridGet (make_month_schedule_all wState5).by_watch W_AF 9
      = some (Slot.person xoEntry) :=
  ⟨⟨by decide,
    (claim_C5_weekday_fallback wState5 13 [] [] [] [xoEntry]).2.2.2 (by decide) rfl⟩,
   by decide, by decide⟩

/-! ## C4: the Phase A scan order -/

/-- C4 (amended): the regular-phase candidates are scanned in the order of
`_sort_af_youngest_first`, a permutation of the regular partition sorted
so that seniority-rank keys descend and, within equal rank keys, names
descend (Python's `reverse=True` flips the name tiebreak as well); the
selected person is the first in that order passing the
not-used-and-admissible predicate, and nobody is selected only when every
candidate fails it. -/
theorem claim_C4_phase_a_order (st : SchedState) (d : Nat) (c : Counters)
    (used : List String) (p_regular : List PoolEntry) :
    ((_sort_af_youngest_first p_regular).Perm p_regular) ∧
    ((_sort_af_youngest_first p_regular).Pairwise
      (fun p q => pairLeB (availKey q) (availKey p) = true)) ∧
    (af_phase_a st d c used p_regular
      = (_sort_af_youngest_first p_regular).find?
          (candidate_ok st d c used ("") false)) ∧
    (∀ p, af_phase_a st d c used p_regular = some p →
      candidate_ok st d c used ("") false p = true ∧
      ∃ l1 l2, _sort_af_youngest_first p_regular = l1 ++ p :: l2 ∧
        ∀ q ∈ l1, candidate_ok st d c used ("") false q = false) ∧
    (af_phase_a st d c used p_regular = none →
      ∀ q ∈ p_regular, candidate_ok st d c used ("") false q = false) := by
  refine ⟨?_, ?_, rfl, ?_, ?_⟩
  · exact sortedBy_perm _ p_regular
  · exact sortedBy_pairwise _
      (fun a b cc h1 h2 => pairLeB_trans (availKey cc) (availKey b) (availKey a) h2 h1)
      (fun a b => (pairLeB_total (availKey b) (availKey a)).elim Or.inl Or.inr)
      p_regular
  · intro p h
    unfold af_phase_a at h
    obtain ⟨hp, l1, l2, hsplit, hfail⟩ := List.find?_eq_some.mp h
    refine ⟨hp, l1, l2, hsplit, ?_⟩
    intro q hq
    have := hfail q hq
    simpa using this
  · intro h q hq
    unfold af_phase_a at h
    have := List.find?_eq_none.mp h q ((mem_sortedBy _ p_regular q).mpr hq)
    simpa using this

/-- The spec's claimed scan order, modelled from its words for comparison:
seniority rank descending, then name ASCENDING. -/
def claimed_af_order (pool : List PoolEntry) : List PoolEntry :=
  sortedBy (fun p q =>
    _seniority_key q.rank < _seniority_key p.rank
    || (_seniority_key q.rank == _seniority_key p.rank && strLeB p.name q.name)) pool

/-- Two officers of equal rank whose names differ, one in-port day. -/
def cPersonAlpha : Person :=
  { registry_number := "100", name := "Alpha", rank := "Ensign", specialty := "FW",
    duty := "Operations Director", primary_shift := "ΑΦ" }

def cPersonBeta : Person :=
  { registry_number := "200", name := "Beta", rank := "Ensign", specialty := "FW",
    duty := "EW Director", primary_shift := "ΑΦ" }

def cState4 : SchedState :=
  { personnel := [cPersonAlpha, cPersonBeta],
    ship_status := some [(8, "in port")],
    holidays := [], leave := [], cannot := [], prefer := [] }

/-- The regular-phase AF partition the engine computes on day 8. -/
def cPool4 : List PoolEntry :=
  (_primary_pool (day_availability cState4 8) W_AF (_load_people_map cState4) true).filter
    (fun p => !(DUTY_WEEKDAY_ONLY.contains (stripStr p.duty)))

def cAlpha : PoolEntry :=
  { registry_id := "100", name := "Alpha", rank := "Ensign", specialty := "FW",
    preferred := false, duty := "Operations Director" }

def cBeta : PoolEntry :=
  { registry_id := "200", name := "Beta", rank := "Ensign", specialty := "FW",
    preferred := false, duty := "EW Director" }

/-- Counterexample for C4 as stated: with two equally ranked admissible
candidates named "Alpha" and "Beta", the engine assigns "Beta" to the
priority watch, while the first admissible candidate in the claimed
(name-ascending) order is "Alpha". -/
theorem claim_C4_counterexample :
    gridGet (make_month_schedule_all cState4).by_watch W_AF 8
      = some (Slot.person cBeta) ∧
    (claimed_af_order cPool4).find? (candidate_ok cState4 8 [] [] ("") false)
      = some cAlpha ∧
    cAlpha ≠ cBeta := by
  decide

/-- Witness for C4 (amended): the selected "Beta" is first in the engine's
scan order, every earlier candidate failing the predicate. -/
theorem claim_C4_witness :
    candidate_ok cState4 8 [] [] ("") false cBeta = true ∧
    ∃ l1 l2, _sort_af_youngest_first cPool4 = l1 ++ cBeta :: l2 ∧
      ∀ q ∈ l1, candidate_ok cState4 8 [] [] ("") false q = false :=
  (claim_C4_phase_a_order cState4 8 [] [] cPool4).2.2.2.1 cBeta (by decide)

/-! ## C8: selected persons' duty and primary watch -/

theorem not_captain {s : String} (h : DUTY_NEVER.contains s = false) : s ≠ "Captain" := by
  intro hh
  rw [hh] at h
  exact absurd h (by decide)

/-- Every person slot of the grid names a roster row whose duty is not
"Captain" and whose recorded primary shift equals the slot's watch. -/
def GridSrc (st : SchedState) (g : Grid) : Prop :=
  ∀ w d p, gridGet g w d = some (Slot.person p) →
    ∃ row, row ∈ st.personnel ∧
      lookupA (_load_people_map st) (stripStr p.registry_id) = some row ∧
      stripStr row.duty ≠ "Captain" ∧ stripStr row.primary_shift = w

theorem pick_poolsrc (st : SchedState) (d : Nat) (w : String) (af : Bool) (p : PoolEntry)
    (hmem : p ∈ _primary_pool (day_availability st d) w (_load_people_map st) af) :
    ∃ row, row ∈ st.personnel ∧
      lookupA (_load_people_map st) (stripStr p.registry_id) = some row ∧
      stripStr row.duty ≠ "Captain" ∧ stripStr row.primary_shift = w := by
  obtain ⟨⟨row, hlook, hduty, hshift⟩, -⟩ :=
    primary_pool_fact (day_availability st d) w (_load_people_map st) af p hmem
  exact ⟨row, (pm_lookup st _ row hlook).1, hlook, not_captain hduty, hshift⟩

theorem fold_setGrid_cases_val {ws : List String} {g : Grid} {d : Nat} {v : Slot}
    {w' : String} {d' : Nat} {s : Slot} :
    gridGet (ws.foldl (fun g' x => setGrid g' x d v) g) w' d' = some s →
    s = v ∨ gridGet g w' d' = some s := by
  induction ws generalizing g with
  | nil => intro h; exact Or.inr h
  | cons a t ih =>
    intro h
    rw [List.foldl_cons] at h
    rcases ih h with hv | hold
    · exact Or.inl hv
    · rcases gridGet_setGrid_cases hold with ⟨-, -, hs⟩ | hh
      · exact Or.inl hs
      · exact Or.inr hh

theorem GridSrc_setGrid (st : SchedState) (g : Grid) (w : String) (d : Nat) (v : Slot)
    (h : GridSrc st g)
    (hv : ∀ p, v = Slot.person p →
      ∃ row, row ∈ st.personnel ∧
        lookupA (_load_people_map st) (stripStr p.registry_id) = some row ∧
        stripStr row.duty ≠ "Captain" ∧ stripStr row.primary_shift = w) :
    GridSrc st (setGrid g w d v) := by
  intro w' d' p hp
  rcases gridGet_setGrid_cases hp with ⟨hw, -, hs⟩ | hold
  · subst hw
    exact hv p hs.symm
  · exact h w' d' p hold

theorem process_day_gridsrc (st : SchedState) (ship : List (Nat × String))
    (acc : Grid × Counters) (d : Nat) (h : GridSrc st acc.1) :
    GridSrc st ((process_day st ship (_load_people_map st) acc d).1) := by
  by_cases hstat : stripStr (lowerStr (shipStatusOf ship d)) ≠ "in port"
  · rw [process_day_eq_sea st ship (_load_people_map st) acc d hstat]
    intro w' d' p hp
    rcases fold_setGrid_cases_val hp with hv | hold
    · exact absurd hv (by simp)
    · exact h w' d' p hold
  · rw [process_day_eq_inport st ship (_load_people_map st) acc d hstat]
    have hg1 : GridSrc st (setGrid acc.1 W_AF d (slotOfPick (pick_af st d acc.2 []
        ((_primary_pool (day_availability st d) W_AF (_load_people_map st) true).filter
          (fun p => !(DUTY_WEEKDAY_ONLY.contains (stripStr p.duty))))
        ((_primary_pool (day_availability st d) W_AF (_load_people_map st) true).filter
          (fun p => DUTY_WEEKDAY_ONLY.contains (stripStr p.duty)))))) := by
      refine GridSrc_setGrid st acc.1 W_AF d _ h ?_
      intro p hp
      cases hpick : pick_af st d acc.2 []
          ((_primary_pool (day_availability st d) W_AF (_load_people_map st) true).filter
            (fun p => !(DUTY_WEEKDAY_ONLY.contains (stripStr p.duty))))
          ((_primary_pool (day_availability st d) W_AF (_load_people_map st) true).filter
            (fun p => DUTY_WEEKDAY_ONLY.contains (stripStr p.duty))) with
      | none =>
        rw [hpick] at hp
        exact absurd hp (by simp [slotOfPick])
      | some q =>
        rw [hpick] at hp
        have hq : q = p := by simpa [slotOfPick] using hp
        subst hq
        rcases pick_af_cases hpick with ⟨-, hmem⟩ | ⟨-, hmem⟩
        · exact pick_poolsrc st d W_AF true q (List.mem_filter.mp hmem).1
        · exact pick_poolsrc st d W_AF true q (List.mem_filter.mp hmem).1
    have main : ∀ (s0 : Grid × Counters × List String), GridSrc st s0.1 →
        GridSrc st ((SECONDARY_WATCHES.foldl
          (step_secondary st d (day_availability st d) (_load_people_map st)) s0).1) := by
      intro s0 h0
      refine foldl_preserve
        (fun s : Grid × Counters × List String => GridSrc st s.1)
        (step_secondary st d (day_availability st d) (_load_people_map st))
        SECONDARY_WATCHES s0 h0
        (by
        intro s a _ hs
        unfold step_secondary
        cases hfind : (_sort_fair_non_af
            (_primary_pool (day_availability st d) a (_load_people_map st) false) s.2.1).find?
            (candidate_ok st d s.2.1 s.2.2 ("") false) with
        | none =>
          simp only [hfind]
          refine GridSrc_setGrid st s.1 a d _ hs ?_
          intro p hp
          exact absurd hp (by simp [slotOfPick])
        | some q =>
          simp only [hfind]
          refine GridSrc_setGrid st s.1 a d _ hs ?_
          intro p hp
          have hq : q = p := by simpa [slotOfPick] using hp
          subst hq
          exact pick_poolsrc st d a false q
            ((mem_sortedBy _ _ q).mp (List.mem_of_find?_eq_some hfind)))
    exact main _ hg1

theorem lookupA_map_const {α β : Type} [DecidableEq α] (ws : List α) (c : β) (k : α)
    {m : β} (h : lookupA (ws.map (fun a => (a, c))) k = some m) : m = c := by
  induction ws with
  | nil => simp [lookupA] at h
  | cons a t ih =>
    by_cases hk : a = k
    · simp [lookupA_cons, hk] at h
      exact h.symm
    · simp only [List.map_cons, lookupA_cons, if_neg hk] at h
      exact ih h

theorem gridGet_init_none (w : String) (d : Nat) :
    gridGet (WATCH_TYPES.map (fun w' => (w', []))) w d = none := by
  unfold gridGet
  cases hc : lookupA (WATCH_TYPES.map (fun w' => (w', ([] : List (Nat × Slot))))) w with
  | none => rfl
  | some m =>
    have : m = [] := lookupA_map_const WATCH_TYPES [] w hc
    rw [this]
    rfl

/-- C8 (assignment restricted to primary watch): every person recorded in
the output grid resolves in the people map to a roster row whose duty is
not "Captain" and whose `primary_shift` equals the watch they hold. -/
theorem claim_C8_primary_watch (st : SchedState) (w : String) (d : Nat) (p : PoolEntry)
    (h : gridGet (make_month_schedule_all st).by_watch w d = some (Slot.person p)) :
    ∃ row, row ∈ st.personnel ∧
      lookupA (_load_people_map st) (stripStr p.registry_id) = some row ∧
      stripStr row.duty ≠ "Captain" ∧ stripStr row.primary_shift = w := by
  unfold make_month_schedule_all at h
  simp only [] at h
  by_cases hpm : (_load_people_map st).isEmpty = true
  · rw [if_pos hpm] at h
    simp [gridGet, lookupA] at h
  · rw [if_neg hpm] at h
    cases hship : st.ship_status with
    | none =>
      rw [hship] at h
      simp only [] at h
      have h' : gridGet (WATCH_TYPES.map (fun w' => (w', []))) w d
          = some (Slot.person p) := h
      rw [gridGet_init_none] at h'
      exact absurd h' (by simp)
    | some shipRows =>
      rw [hship] at h
      simp only [] at h
      have main := foldl_preserve
        (fun acc : Grid × Counters => GridSrc st acc.1)
        (process_day st shipRows (_load_people_map st))
        (sortedBy natLeB (shipRows.map (fun r => r.1)))
        (WATCH_TYPES.map (fun w => (w, [])), [])
        (by
          intro w' d' p' hp'
          rw [gridGet_init_none] at hp'
          exact absurd hp' (by simp))
        (by
          intro s a _ hs
          exact process_day_gridsrc st shipRows s a hs)
      exact main w d p h

/-- The pool snapshot of `wPerson1` as it appears in the AF grid. -/
def wAlphaEntry : PoolEntry :=
  { registry_id := "100", name := "Alpha", rank := "Ensign", specialty := "FW",
    preferred := false, duty := "Operations Director" }

/-- Witness for C8: the person assigned on day 8 of `wState1` resolves to
a roster row with a non-Captain duty and primary shift ΑΦ. -/
theorem claim_C8_witness :
    gridGet (make_month_schedule_all wState1).by_watch W_AF 8
      = some (Slot.person wAlphaEntry) ∧
    ∃ row, row ∈ wState1.personnel ∧
      lookupA (_load_people_map wState1) (stripStr wAlphaEntry.registry_id) = some row ∧
      stripStr row.duty ≠ "Captain" ∧ stripStr row.primary_shift = W_AF :=
  ⟨by decide, claim_C8_primary_watch wState1 W_AF 8 wAlphaEntry (by decide)⟩

/-! ## C3: same-day exclusivity and ledger consistency -/

theorem contains_false_not_mem {l : List String} {x : String}
    (h : l.contains x = false) : x ∉ l := by
  intro hm
  rw [← Bool.not_eq_true] at h
  exact h (by simpa [List.contains] using hm)

/-- No date shows the same registry id in two different watches. -/
def Excl (g : Grid) : Prop :=
  ∀ d w1 w2 p1 p2, w1 ≠ w2 →
    gridGet g w1 d = some (Slot.person p1) →
    gridGet g w2 d = some (Slot.person p2) →
    p1.registry_id ≠ p2.registry_id

theorem day_excl (st : SchedState) (ship : List (Nat × String))
    (pm : List (String × Person)) (acc : Grid × Counters) (d : Nat)
    (hfresh : ∀ w, gridGet acc.1 w d = none) (hexcl : Excl acc.1) :
    Excl ((process_day st ship pm acc d).1) := by
  by_cases hstat : stripStr (lowerStr (shipStatusOf ship d)) ≠ "in port"
  · rw [process_day_eq_sea st ship pm acc d hstat]
    intro d' w1 w2 p1 p2 hne h1 h2
    rcases fold_setGrid_cases_val h1 with hv | hold1
    · exact absurd hv (by simp)
    · rcases fold_setGrid_cases_val h2 with hv | hold2
      · exact absurd hv (by simp)
      · exact hexcl d' w1 w2 p1 p2 hne hold1 hold2
  · rw [process_day_eq_inport st ship pm acc d hstat]
    have main : ∀ (s0 : Grid × Counters × List String),
        (∀ w p, gridGet s0.1 w d = some (Slot.person p) → p.registry_id ∈ s0.2.2) →
        Excl s0.1 →
        (∀ d' w, d' ≠ d → gridGet s0.1 w d' = gridGet acc.1 w d') →
        Excl ((SECONDARY_WATCHES.foldl
          (step_secondary st d (day_availability st d) pm) s0).1) := by
      intro s0 h0a h0b h0c
      have hfold := foldl_preserve
        (fun s : Grid × Counters × List String =>
          (∀ w p, gridGet s.1 w d = some (Slot.person p) → p.registry_id ∈ s.2.2) ∧
          Excl s.1 ∧
          (∀ d' w, d' ≠ d → gridGet s.1 w d' = gridGet acc.1 w d'))
        (step_secondary st d (day_availability st d) pm)
        SECONDARY_WATCHES s0 ⟨h0a, h0b, h0c⟩
        (by
          intro s a _ hs
          obtain ⟨hs1, hs2, hs3⟩ := hs
          unfold step_secondary
          cases hfind : (_sort_fair_non_af
              (_primary_pool (day_availability st d) a pm false) s.2.1).find?
              (candidate_ok st d s.2.1 s.2.2 ("") false) with
          | none =>
            simp only [hfind]
            refine ⟨?_, ?_, ?_⟩
            · intro w p hp
              rcases gridGet_setGrid_cases hp with ⟨-, -, hv⟩ | hold
              · exact absurd hv.symm (by simp [slotOfPick])
              · exact hs1 w p hold
            · intro d' w1 w2 p1 p2 hne h1 h2
              rcases gridGet_setGrid_cases h1 with ⟨-, -, hv⟩ | hold1
              · exact absurd hv (by simp [slotOfPick])
              · rcases gridGet_setGrid_cases h2 with ⟨-, -, hv⟩ | hold2
                · exact absurd hv (by simp [slotOfPick])
                · exact hs2 d' w1 w2 p1 p2 hne hold1 hold2
            · intro d' w hd'
              rw [gridGet_setGrid_other s.1 a d _ w d' (Or.inr hd')]
              exact hs3 d' w hd'
          | some q =>
            simp only [hfind]
            have hnotused : q.registry_id ∉ s.2.2 :=
              contains_false_not_mem (candidate_ok_not_used (List.find?_some hfind))
            refine ⟨?_, ?_, ?_⟩
            · intro w p hp
              rcases gridGet_setGrid_cases hp with ⟨-, -, hv⟩ | hold
              · have : q = p := by simpa [slotOfPick] using hv.symm
                subst this
                exact List.mem_append.mpr (Or.inr (by simp))
              · exact List.mem_append.mpr (Or.inl (hs1 w p hold))
            · intro d' w1 w2 p1 p2 hne h1 h2
              rcases gridGet_setGrid_cases h1 with ⟨hw1, hd1, hv1⟩ | hold1
              · rcases gridGet_setGrid_cases h2 with ⟨hw2, -, -⟩ | hold2
                · exact absurd (hw1.trans hw2.symm) hne
                · have hq1 : q = p1 := by simpa [slotOfPick] using hv1.symm
                  subst hq1
                  subst hd1
                  have hp2 : p2.registry_id ∈ s.2.2 := hs1 w2 p2 hold2
                  intro heq
                  rw [heq] at hnotused
                  exact hnotused hp2
              · rcases gridGet_setGrid_cases h2 with ⟨-, hd2, hv2⟩ | hold2
                · have hq2 : q = p2 := by simpa [slotOfPick] using hv2.symm
                  subst hq2
                  subst hd2
                  have hp1 : p1.registry_id ∈ s.2.2 := hs1 w1 p1 hold1
                  intro heq
                  rw [← heq] at hnotused
                  exact hnotused hp1
                · exact hs2 d' w1 w2 p1 p2 hne hold1 hold2
            · intro d' w hd'
              rw [gridGet_setGrid_other s.1 a d _ w d' (Or.inr hd')]
              exact hs3 d' w hd')
      exact hfold.2.1
    refine main _ ?_ ?_ ?_
    · intro w p hp
      rcases gridGet_setGrid_cases hp with ⟨-, -, hv⟩ | hold
      · cases hpick : pick_af st d acc.2 []
            ((_primary_pool (day_availability st d) W_AF pm true).filter
              (fun p => !(DUTY_WEEKDAY_ONLY.contains (stripStr p.duty))))
            ((_primary_pool (day_availability st d) W_AF pm true).filter
              (fun p => DUTY_WEEKDAY_ONLY.contains (stripStr p.duty))) with
        | none =>
          rw [hpick] at hv
          exact absurd hv (by simp [slotOfPick])
        | some q =>
          rw [hpick] at hv
          have : q = p := by simpa [slotOfPick] using hv.symm
          subst this
          simp [hpick]
      · rw [hfresh w] at hold
        exact absurd hold (by simp)
    · intro d' w1 w2 p1 p2 hne h1 h2
      rcases gridGet_setGrid_cases h1 with ⟨hw1, -, -⟩ | hold1
      · rcases gridGet_setGrid_cases h2 with ⟨hw2, -, -⟩ | hold2
        · exact absurd (hw1.trans hw2.symm) hne
        · exact hexcl d' w1 w2 p1 p2 hne (by
            rcases gridGet_setGrid_cases h1 with ⟨-, hd1, hv1⟩ | hold1'
            · subst hd1
              rw [hfresh w2] at hold2
              exact absurd hold2 (by simp)
            · exact hold1') hold2
      · rcases gridGet_setGrid_cases h2 with ⟨-, hd2, hv2⟩ | hold2
        · subst hd2
          rw [hfresh w1] at hold1
          exact absurd hold1 (by simp)
        · exact hexcl d' w1 w2 p1 p2 hne hold1 hold2
    · intro d' w hd'
      exact gridGet_setGrid_other acc.1 W_AF d _ w d' (Or.inr hd')

theorem month_excl (st : SchedState) (shipRows : List (Nat × String))
    (pm : List (String × Person)) :
    ∀ (todo : List Nat) (acc : Grid × Counters),
      todo.Nodup → (∀ d ∈ todo, ∀ w, gridGet acc.1 w d = none) → Excl acc.1 →
      Excl ((todo.foldl (process_day st shipRows pm) acc).1) := by
  intro todo
  induction todo with
  | nil => intro acc _ _ h; exact h
  | cons a t ih =>
    intro acc hnd hfresh hexcl
    rw [List.foldl_cons]
    have hna : a ∉ t := (List.nodup_cons.mp hnd).1
    have hnt : t.Nodup := (List.nodup_cons.mp hnd).2
    refine ih (process_day st shipRows pm acc a) hnt ?_ ?_
    · intro d hd w
      have hda : d ≠ a := fun hh => hna (hh ▸ hd)
      rw [process_day_grid_frame st shipRows pm acc a w d hda]
      exact hfresh d (List.mem_cons_of_mem a hd) w
    · exact day_excl st shipRows pm acc a (hfresh a (List.mem_cons_self a t)) hexcl

/-- C3 (same-day exclusivity and ledger consistency): over a ship-status
file whose date column has no duplicates (the spec's "map date → status"
input shape), the final grid never shows one registry id in two watches on
the same date; and unconditionally, every final ledger entry's total
equals the size of its assigned-date set. -/
theorem claim_C3_exclusivity_consistency (st : SchedState)
    (hnd : (make_month_schedule_all st).dates.Nodup) :
    (∀ d w1 w2 p1 p2, w1 ≠ w2 →
      gridGet (make_month_schedule_all st).by_watch w1 d = some (Slot.person p1) →
      gridGet (make_month_schedule_all st).by_watch w2 d = some (Slot.person p2) →
      p1.registry_id ≠ p2.registry_id) ∧
    (∀ rid e, lookupA (make_month_schedule_all st).counters rid = some e →
      e.total = e.dates.length) := by
  constructor
  · intro d w1 w2 p1 p2 hne h1 h2
    unfold make_month_schedule_all at h1 h2 hnd
    simp only [] at h1 h2 hnd
    by_cases hpm : (_load_people_map st).isEmpty = true
    · rw [if_pos hpm] at h1
      have h1' : gridGet ([] : Grid) w1 d = some (Slot.person p1) := h1
      simp [gridGet, lookupA] at h1'
    · rw [if_neg hpm] at h1 h2 hnd
      cases hship : st.ship_status with
      | none =>
        rw [hship] at h1
        simp only [] at h1
        have h1' : gridGet (WATCH_TYPES.map (fun w' => (w', []))) w1 d
            = some (Slot.person p1) := h1
        rw [gridGet_init_none] at h1'
        exact absurd h1' (by simp)
      | some shipRows =>
        rw [hship] at h1 h2 hnd
        simp only [] at h1 h2 hnd
        exact month_excl st shipRows (_load_people_map st)
          (sortedBy natLeB (shipRows.map (fun r => r.1)))
          (WATCH_TYPES.map (fun w => (w, [])), [])
          hnd
          (fun d' _ w => gridGet_init_none w d')
          (fun d' w1' w2' p1' p2' hne' h1' h2' => by
            rw [gridGet_init_none] at h1'
            exact absurd h1' (by simp))
          d w1 w2 p1 p2 hne h1 h2
  · intro rid e h
    have hm : CInv0 st (make_month_schedule_all st).counters :=
      month_counters st (CInv0 st)
        (fun c p w da wo d hok _ hP => CInv0_record st c p w d da wo hP hok)
        (fun rid' e' h' => by simp [lookupA] at h')
    obtain ⟨-, -, htot, -, -, -⟩ := hm rid e h
    exact htot

/-- Witness for C3: the run of `wState1` has duplicate-free dates, and the
theorem's conclusions hold for it. -/
theorem claim_C3_witness :
    (make_month_schedule_all wState1).dates.Nodup ∧
    ((∀ d w1 w2 p1 p2, w1 ≠ w2 →
      gridGet (make_month_schedule_all wState1).by_watch w1 d = some (Slot.person p1) →
      gridGet (make_month_schedule_all wState1).by_watch w2 d = some (Slot.person p2) →
      p1.registry_id ≠ p2.registry_id) ∧
    (∀ rid e, lookupA (make_month_schedule_all wState1).counters rid = some e →
      e.total = e.dates.length)) :=
  ⟨by decide, claim_C3_exclusivity_consistency wState1 (by decide)⟩

/-! ## C10: preference noninterference -/

/-- Erase the `preferred` annotation of a pool entry. -/
def scrubEntry (p : PoolEntry) : PoolEntry := { p with preferred := false }

/-- Erase the `preferred` annotation inside a grid slot. -/
def scrubSlot : Slot → Slot
  | Slot.person p => Slot.person (scrubEntry p)
  | s => s

/-- Erase the `preferred` annotations of a pool map. -/
def scrubPools (pl : List (String × List PoolEntry)) : List (String × List PoolEntry) :=
  pl.map (fun kv => (kv.1, kv.2.map scrubEntry))

/-- Erase the `preferred` annotations of an assignment grid. -/
def scrubGrid (g : Grid) : Grid :=
  g.map (fun kv => (kv.1, kv.2.map (fun cell => (cell.1, scrubSlot cell.2))))

/-- One eligible person, one in-port day, no preferences. -/
def cState10 : SchedState :=
  { personnel := [wPerson1], ship_status := some [(8, "in port")],
    holidays := [], leave := [], cannot := [], prefer := [] }

/-- The same input except that the person prefers day 8. -/
def cState10p : SchedState := { cState10 with prefer := [(8, "100")] }

/-- Counterexample for C10 as stated: the two runs differ only in the
preference records, yet the assignment grids are not identical - the
person snapshot stored in the grid carries the `preferred` flag. -/
theorem claim_C10_counterexample :
    cState10p = { cState10 with prefer := [(8, "100")] } ∧
    (make_month_schedule_all cState10p).by_watch
      ≠ (make_month_schedule_all cState10).by_watch := by
  refine ⟨rfl, ?_⟩
  decide

theorem scrub_eq_fields {p q : PoolEntry} (h : scrubEntry p = scrubEntry q) :
    p.registry_id = q.registry_id ∧ p.name = q.name ∧ p.rank = q.rank ∧
    p.specialty = q.specialty ∧ p.duty = q.duty := by
  cases p
  cases q
  simp only [scrubEntry, PoolEntry.mk.injEq] at h
  simp only [PoolEntry.mk.injEq] at h ⊢
  tauto

theorem scrubEntry_duty_update {p q : PoolEntry} (h : scrubEntry p = scrubEntry q)
    (D : String) : scrubEntry { p with duty := D } = scrubEntry { q with duty := D } := by
  cases p
  cases q
  simp only [scrubEntry, PoolEntry.mk.injEq] at h ⊢
  tauto

theorem find?_scrub (pred : PoolEntry → Bool) (hpred : ∀ p, pred (scrubEntry p) = pred p)
    (l1 l2 : List PoolEntry) (h : l1.map scrubEntry = l2.map scrubEntry) :
    (l1.find? pred).map scrubEntry = (l2.find? pred).map scrubEntry := by
  have hfe : pred ∘ scrubEntry = pred := funext hpred
  have h1 := @List.find?_map _ _ pred scrubEntry l1
  have h2 := @List.find?_map _ _ pred scrubEntry l2
  rw [hfe] at h1 h2
  calc (l1.find? pred).map scrubEntry = (l1.map scrubEntry).find? pred := h1.symm
    _ = (l2.map scrubEntry).find? pred := by rw [h]
    _ = (l2.find? pred).map scrubEntry := h2

theorem filter_scrub (f : PoolEntry → Bool) (hf : ∀ p, f (scrubEntry p) = f p)
    (l1 l2 : List PoolEntry) (h : l1.map scrubEntry = l2.map scrubEntry) :
    (l1.filter f).map scrubEntry = (l2.filter f).map scrubEntry := by
  have hfe : f ∘ scrubEntry = f := funext hf
  have h1 := @List.filter_map _ _ f scrubEntry l1
  have h2 := @List.filter_map _ _ f scrubEntry l2
  rw [hfe] at h1 h2
  calc (l1.filter f).map scrubEntry = (l1.map scrubEntry).filter f := h1.symm
    _ = (l2.map scrubEntry).filter f := by rw [h]
    _ = (l2.filter f).map scrubEntry := h2

theorem sortedBy_scrub (le : PoolEntry → PoolEntry → Bool)
    (hle : ∀ a b, le a b = le (scrubEntry a) (scrubEntry b))
    (l1 l2 : List PoolEntry) (h : l1.map scrubEntry = l2.map scrubEntry) :
    (sortedBy le l1).map scrubEntry = (sortedBy le l2).map scrubEntry := by
  rw [sortedBy_map le le scrubEntry hle l1, sortedBy_map le le scrubEntry hle l2, h]

theorem option_scrub_cases {o1 o2 : Option PoolEntry}
    (h : o1.map scrubEntry = o2.map scrubEntry) :
    (o1 = none ∧ o2 = none) ∨
    (∃ a b, o1 = some a ∧ o2 = some b ∧ scrubEntry a = scrubEntry b) := by
  cases o1 with
  | none =>
    cases o2 with
    | none => exact Or.inl ⟨rfl, rfl⟩
    | some b => simp at h
  | some a =>
    cases o2 with
    | none => simp at h
    | some b =>
      simp only [Option.map_some'] at h
      exact Or.inr ⟨a, b, rfl, rfl, Option.some_inj.mp h⟩

theorem foldl_rel {σ₁ σ₂ α : Type} (R : σ₁ → σ₂ → Prop)
    (f1 : σ₁ → α → σ₁) (f2 : σ₂ → α → σ₂) (l : List α)
    (hstep : ∀ s1 s2 a, R s1 s2 → R (f1 s1 a) (f2 s2 a)) :
    ∀ s1 s2, R s1 s2 → R (l.foldl f1 s1) (l.foldl f2 s2) := by
  induction l with
  | nil => intro s1 s2 h; simpa using h
  | cons x t ih =>
    intro s1 s2 h
    exact ih (f1 s1 x) (f2 s2 x) (hstep s1 s2 x h)

theorem updateAssoc_map_cells (m : List (Nat × Slot)) (d : Nat) (v : Slot) :
    (updateAssoc m d v).map (fun cell => (cell.1, scrubSlot cell.2))
      = updateAssoc (m.map (fun cell => (cell.1, scrubSlot cell.2))) d (scrubSlot v) := by
  induction m with
  | nil => rfl
  | cons cell t ih =>
    by_cases hd : cell.1 = d
    · simp [updateAssoc_cons, hd]
    · simp [updateAssoc_cons, hd, ih]

theorem scrubGrid_setGrid (g : Grid) (w : String) (d : Nat) (v : Slot) :
    scrubGrid (setGrid g w d v) = setGrid (scrubGrid g) w d (scrubSlot v) := by
  unfold scrubGrid setGrid
  induction g with
  | nil => rfl
  | cons kv t ih =>
    by_cases hw : kv.1 = w
    · simp only [List.map_cons, if_pos hw, ih]
      rw [updateAssoc_map_cells]
    · simp only [List.map_cons, if_neg hw, ih]

theorem scrubPools_addToPool (pl : List (String × List PoolEntry)) (wt : String)
    (x : PoolEntry) :
    scrubPools (addToPool pl wt x) = addToPool (scrubPools pl) wt (scrubEntry x) := by
  unfold scrubPools addToPool
  induction pl with
  | nil => rfl
  | cons kv t ih =>
    by_cases hw : kv.1 = wt
    · simp only [List.map_cons, if_pos hw, ih]
      simp
    · simp only [List.map_cons, if_neg hw, ih]

theorem availStep_scrub (lids cids pids1 pids2 : List String) (row : Person)
    (pl1 pl2 : List (String × List PoolEntry))
    (h : scrubPools pl1 = scrubPools pl2) :
    scrubPools (availStep lids cids pids1 pl1 row)
      = scrubPools (availStep lids cids pids2 pl2 row) := by
  unfold availStep
  by_cases hguard : (stripStr row.registry_number = ""
      || lids.contains (stripStr row.registry_number)
      || cids.contains (stripStr row.registry_number)) = true
  · rw [if_pos hguard, if_pos hguard]
    exact h
  · rw [if_neg hguard, if_neg hguard]
    refine foldl_rel (fun a b => scrubPools a = scrubPools b) _ _
      (eligibleWatches (stripStr row.rank)) ?_ pl1 pl2 h
    intro s1 s2 a hs
    rw [scrubPools_addToPool, scrubPools_addToPool, hs]
    have hmk : scrubEntry (mkPoolEntry (stripStr row.registry_number) (stripStr row.name)
          (stripStr row.rank) (stripStr row.specialty)
          (pids1.contains (stripStr row.registry_number)))
        = scrubEntry (mkPoolEntry (stripStr row.registry_number) (stripStr row.name)
          (stripStr row.rank) (stripStr row.specialty)
          (pids2.contains (stripStr row.registry_number))) := rfl
    rw [hmk]

theorem scrub_sort_comm (pl : List (String × List PoolEntry)) :
    scrubPools (pl.map (fun kv =>
        (kv.1, sortedBy (fun p q => pairLeB (availKey p) (availKey q)) kv.2)))
      = (scrubPools pl).map (fun kv =>
        (kv.1, sortedBy (fun p q => pairLeB (availKey p) (availKey q)) kv.2)) := by
  unfold scrubPools
  induction pl with
  | nil => rfl
  | cons kv t ih =>
    simp only [List.map_cons, ih, List.cons.injEq, Prod.mk.injEq, true_and, and_true]
    exact sortedBy_map (fun p q => pairLeB (availKey p) (availKey q))
      (fun p q => pairLeB (availKey p) (availKey q)) scrubEntry (fun a b => rfl) kv.2

theorem day_avail_scrub (st : SchedState) (P : List (Nat × String)) (d : Nat) :
    scrubPools (poolsOf (day_availability { st with prefer := P } d))
      = scrubPools (poolsOf (day_availability st d)) := by
  unfold day_availability
  have hship : ({ st with prefer := P } : SchedState).ship_status = st.ship_status := rfl
  have hpers : ({ st with prefer := P } : SchedState).personnel = st.personnel := rfl
  have hleave : ({ st with prefer := P } : SchedState).leave = st.leave := rfl
  have hcannot : ({ st with prefer := P } : SchedState).cannot = st.cannot := rfl
  have hprefer : ({ st with prefer := P } : SchedState).prefer = P := rfl
  rw [hship, hpers, hleave, hcannot, hprefer]
  cases hss : st.ship_status with
  | none => rfl
  | some shipRows =>
    simp only []
    by_cases h1 : shipRows.isEmpty = true
    · rw [if_pos h1, if_pos h1]
    · rw [if_neg h1, if_neg h1]
      cases hlk : lookupA shipRows d with
      | none => rfl
      | some status0 =>
        simp only []
        by_cases h2 : (!(["in port", "in-port", "port"].contains
            (lowerStr (stripStr status0)))) = true
        · rw [if_pos h2, if_pos h2]
        · rw [if_neg h2, if_neg h2]
          by_cases h3 : st.personnel.isEmpty = true
          · rw [if_pos h3, if_pos h3]
          · rw [if_neg h3, if_neg h3]
            show scrubPools ((st.personnel.foldl
                (availStep (idsOnDay st.leave d) (idsOnDay st.cannot d) (idsOnDay P d))
                (WATCH_TYPES.map (fun wt => (wt, [])))).map (fun kv =>
                  (kv.1, sortedBy (fun p q => pairLeB (availKey p) (availKey q)) kv.2)))
              = scrubPools ((st.personnel.foldl
                (availStep (idsOnDay st.leave d) (idsOnDay st.cannot d)
                  (idsOnDay st.prefer d))
                (WATCH_TYPES.map (fun wt => (wt, [])))).map (fun kv =>
                  (kv.1, sortedBy (fun p q => pairLeB (availKey p) (availKey q)) kv.2)))
            rw [scrub_sort_comm, scrub_sort_comm]
            have hrel := foldl_rel (fun a b => scrubPools a = scrubPools b)
              (availStep (idsOnDay st.leave d) (idsOnDay st.cannot d) (idsOnDay P d))
              (availStep (idsOnDay st.leave d) (idsOnDay st.cannot d)
                (idsOnDay st.prefer d))
              st.personnel
              (fun s1 s2 a hs => availStep_scrub _ _ _ _ a s1 s2 hs)
              (WATCH_TYPES.map (fun wt => (wt, [])))
              (WATCH_TYPES.map (fun wt => (wt, []))) rfl
            rw [hrel]

theorem getD_scrub {o1 o2 : Option (List PoolEntry)}
    (h : o1.map (List.map scrubEntry) = o2.map (List.map scrubEntry)) :
    (o1.getD []).map scrubEntry = (o2.getD []).map scrubEntry := by
  cases o1 <;> cases o2 <;> simp_all

theorem primary_pool_scrub (info1 info2 : DayAvail) (w : String)
    (pm : List (String × Person)) (af : Bool)
    (h : scrubPools (poolsOf info1) = scrubPools (poolsOf info2)) :
    (_primary_pool info1 w pm af).map scrubEntry
      = (_primary_pool info2 w pm af).map scrubEntry := by
  have hbase : ((lookupA (poolsOf info1) w).getD []).map scrubEntry
      = ((lookupA (poolsOf info2) w).getD []).map scrubEntry := by
    apply getD_scrub
    have h1 : lookupA (scrubPools (poolsOf info1)) w
        = (lookupA (poolsOf info1) w).map (List.map scrubEntry) :=
      lookupA_mapValues (poolsOf info1) (List.map scrubEntry) w
    have h2 : lookupA (scrubPools (poolsOf info2)) w
        = (lookupA (poolsOf info2) w).map (List.map scrubEntry) :=
      lookupA_mapValues (poolsOf info2) (List.map scrubEntry) w
    rw [← h1, ← h2, h]
  unfold _primary_pool
  have main : ∀ (b1 b2 : List PoolEntry), b1.map scrubEntry = b2.map scrubEntry →
      ∀ (o1 o2 : List PoolEntry), o1.map scrubEntry = o2.map scrubEntry →
      ((b1.foldl (fun out p =>
        match lookupA pm (stripStr p.registry_id) with
        | none => out
        | some row =>
          let duty := stripStr row.duty
          if DUTY_NEVER.contains duty then out
          else if stripStr row.primary_shift ≠ w then out
          else out ++ [if af then { p with duty := duty } else p]) o1).map scrubEntry
      = (b2.foldl (fun out p =>
        match lookupA pm (stripStr p.registry_id) with
        | none => out
        | some row =>
          let duty := stripStr row.duty
          if DUTY_NEVER.contains duty then out
          else if stripStr row.primary_shift ≠ w then out
          else out ++ [if af then { p with duty := duty } else p]) o2).map scrubEntry) := by
    intro b1
    induction b1 with
    | nil =>
      intro b2 hb
      cases b2 with
      | nil => intro o1 o2 ho; simpa using ho
      | cons p2 t2 => simp at hb
    | cons p1 t1 ih =>
      intro b2 hb
      cases b2 with
      | nil => simp at hb
      | cons p2 t2 =>
        simp only [List.map_cons, List.cons.injEq] at hb
        obtain ⟨hp, ht⟩ := hb
        intro o1 o2 ho
        rw [List.foldl_cons, List.foldl_cons]
        apply ih t2 ht
        obtain ⟨hreg, -, -, -, -⟩ := scrub_eq_fields hp
        have hkey : stripStr p1.registry_id = stripStr p2.registry_id := by rw [hreg]
        rw [hkey]
        cases hrow : lookupA pm (stripStr p2.registry_id) with
        | none => exact ho
        | some row =>
          simp only []
          by_cases hduty : DUTY_NEVER.contains (stripStr row.duty) = true
          · rw [if_pos hduty, if_pos hduty]
            exact ho
          · rw [if_neg hduty, if_neg hduty]
            by_cases hshift : stripStr row.primary_shift ≠ w
            · rw [if_pos hshift, if_pos hshift]
              exact ho
            · rw [if_neg hshift, if_neg hshift]
              rw [List.map_append, List.map_append, ho]
              congr 1
              cases af with
              | true =>
                rw [if_pos rfl, if_pos rfl]
                simp only [List.map_cons, List.map_nil]
                rw [scrubEntry_duty_update hp (stripStr row.duty)]
              | false =>
                rw [if_neg Bool.false_ne_true, if_neg Bool.false_ne_true]
                simp only [List.map_cons, List.map_nil]
                rw [hp]
  exact main _ _ hbase [] [] rfl

theorem af_sort_scrub (l1 l2 : List PoolEntry)
    (h : l1.map scrubEntry = l2.map scrubEntry) :
    (_sort_af_youngest_first l1).map scrubEntry
      = (_sort_af_youngest_first l2).map scrubEntry :=
  sortedBy_scrub (fun p q => pairLeB (availKey q) (availKey p)) (fun a b => rfl) l1 l2 h

theorem fair_sort_scrub (c : Counters) (l1 l2 : List PoolEntry)
    (h : l1.map scrubEntry = l2.map scrubEntry) :
    (_sort_fair_non_af l1 c).map scrubEntry = (_sort_fair_non_af l2 c).map scrubEntry :=
  sortedBy_scrub (fun p q => tripleLeB (fairKey c p) (fairKey c q)) (fun a b => rfl) l1 l2 h

theorem pick_af_scrub (st : SchedState) (P : List (Nat × String)) (d : Nat)
    (c : Counters) (used : List String) (reg1 wdo1 reg2 wdo2 : List PoolEntry)
    (hreg : reg1.map scrubEntry = reg2.map scrubEntry)
    (hwdo : wdo1.map scrubEntry = wdo2.map scrubEntry) :
    (pick_af { st with prefer := P } d c used reg1 wdo1).map scrubEntry
      = (pick_af st d c used reg2 wdo2).map scrubEntry := by
  have hcand : ∀ da wo, candidate_ok { st with prefer := P } d c used da wo
      = candidate_ok st d c used da wo := fun da wo => rfl
  unfold pick_af af_phase_a af_phase_b
  rw [hcand, hcand]
  have hA := find?_scrub (candidate_ok st d c used ("") false) (fun p => rfl)
    _ _ (af_sort_scrub reg1 reg2 hreg)
  rcases option_scrub_cases hA with ⟨h1, h2⟩ | ⟨a, b, h1, h2, hab⟩
  · rw [h1, h2]
    exact find?_scrub (candidate_ok st d c used ("weekday_only") true) (fun p => rfl)
      _ _ (af_sort_scrub wdo1 wdo2 hwdo)
  · rw [h1, h2]
    simp [hab]

theorem recordAssignment_scrub (st : SchedState) (P : List (Nat × String)) (c : Counters)
    {p1 p2 : PoolEntry} (h : scrubEntry p1 = scrubEntry p2) (w : String) (d : Nat) :
    recordAssignment { st with prefer := P } c p1 w d = recordAssignment st c p2 w d := by
  obtain ⟨hreg, hname, hrank, hspec, -⟩ := scrub_eq_fields h
  have hst : recordAssignment { st with prefer := P } c p1 w d
      = recordAssignment st c p1 w d := rfl
  rw [hst]
  unfold recordAssignment
  have hfresh : freshEntry p1 = freshEntry p2 := by
    unfold freshEntry
    rw [hname, hrank, hspec]
  rw [hreg, hfresh]

theorem slotOfPick_scrub {o1 o2 : Option PoolEntry}
    (h : o1.map scrubEntry = o2.map scrubEntry) :
    scrubSlot (slotOfPick o1) = scrubSlot (slotOfPick o2) := by
  rcases option_scrub_cases h with ⟨h1, h2⟩ | ⟨a, b, h1, h2, hab⟩
  · rw [h1, h2]
  · rw [h1, h2]
    simp [slotOfPick, scrubSlot, hab]

theorem step_secondary_scrub (st : SchedState) (P : List (Nat × String)) (d : Nat)
    (pm : List (String × Person)) (s1 s2 : Grid × Counters × List String) (a : String)
    (hg : scrubGrid s1.1 = scrubGrid s2.1) (hc : s1.2.1 = s2.2.1) (hu : s1.2.2 = s2.2.2) :
    scrubGrid ((step_secondary { st with prefer := P } d
        (day_availability { st with prefer := P } d) pm s1 a).1)
      = scrubGrid ((step_secondary st d (day_availability st d) pm s2 a).1) ∧
    ((step_secondary { st with prefer := P } d
        (day_availability { st with prefer := P } d) pm s1 a).2.1
      = (step_secondary st d (day_availability st d) pm s2 a).2.1) ∧
    ((step_secondary { st with prefer := P } d
        (day_availability { st with prefer := P } d) pm s1 a).2.2
      = (step_secondary st d (day_availability st d) pm s2 a).2.2) := by
  have hpool : (_primary_pool (day_availability { st with prefer := P } d) a pm false).map
      scrubEntry = (_primary_pool (day_availability st d) a pm false).map scrubEntry :=
    primary_pool_scrub _ _ a pm false (day_avail_scrub st P d)
  have hcand : candidate_ok { st with prefer := P } d s1.2.1 s1.2.2 ("") false
      = candidate_ok st d s2.2.1 s2.2.2 ("") false := by
    rw [hc, hu]
    rfl
  have hfind := find?_scrub (candidate_ok st d s2.2.1 s2.2.2 ("") false) (fun p => rfl)
    _ _ (fair_sort_scrub s2.2.1
      (_primary_pool (day_availability { st with prefer := P } d) a pm false)
      (_primary_pool (day_availability st d) a pm false) hpool)
  unfold step_secondary
  simp only []
  rw [hcand, hc]
  rcases option_scrub_cases hfind with ⟨h1, h2⟩ | ⟨p1, p2, h1, h2, hp⟩
  · rw [h1, h2]
    refine ⟨?_, rfl, hu⟩
    show scrubGrid (setGrid s1.1 a d (slotOfPick none))
      = scrubGrid (setGrid s2.1 a d (slotOfPick none))
    rw [scrubGrid_setGrid, scrubGrid_setGrid, hg]
  · rw [h1, h2]
    obtain ⟨hreg, -, -, -, -⟩ := scrub_eq_fields hp
    refine ⟨?_, ?_, ?_⟩
    · show scrubGrid (setGrid s1.1 a d (slotOfPick (some p1)))
        = scrubGrid (setGrid s2.1 a d (slotOfPick (some p2)))
      rw [scrubGrid_setGrid, scrubGrid_setGrid, hg,
        slotOfPick_scrub (show (some p1).map scrubEntry = (some p2).map scrubEntry by
          simp [hp])]
    · show recordAssignment { st with prefer := P } s2.2.1 p1 a d
        = recordAssignment st s2.2.1 p2 a d
      exact recordAssignment_scrub st P s2.2.1 hp a d
    · show s1.2.2 ++ [p1.registry_id] = s2.2.2 ++ [p2.registry_id]
      rw [hu, hreg]

theorem scrubGrid_fold_sea (d : Nat) :
    ∀ (ws : List String) (g : Grid),
      scrubGrid (ws.foldl (fun g' w => setGrid g' w d Slot.sea) g)
        = ws.foldl (fun g' w => setGrid g' w d Slot.sea) (scrubGrid g) := by
  intro ws
  induction ws with
  | nil => intro g; rfl
  | cons a t ih =>
    intro g
    rw [List.foldl_cons, List.foldl_cons, ih, scrubGrid_setGrid]
    rfl

theorem process_day_scrub (st : SchedState) (P : List (Nat × String))
    (ship : List (Nat × String)) (pm : List (String × Person))
    (acc1 acc2 : Grid × Counters) (d : Nat)
    (hg : scrubGrid acc1.1 = scrubGrid acc2.1) (hc : acc1.2 = acc2.2) :
    scrubGrid ((process_day { st with prefer := P } ship pm acc1 d).1)
      = scrubGrid ((process_day st ship pm acc2 d).1) ∧
    (process_day { st with prefer := P } ship pm acc1 d).2
      = (process_day st ship pm acc2 d).2 := by
  by_cases hstat : stripStr (lowerStr (shipStatusOf ship d)) ≠ "in port"
  · rw [process_day_eq_sea _ ship pm acc1 d hstat, process_day_eq_sea st ship pm acc2 d hstat]
    refine ⟨?_, hc⟩
    show scrubGrid (WATCH_TYPES.foldl (fun g w => setGrid g w d Slot.sea) acc1.1)
      = scrubGrid (WATCH_TYPES.foldl (fun g w => setGrid g w d Slot.sea) acc2.1)
    rw [scrubGrid_fold_sea, scrubGrid_fold_sea, hg]
  · rw [process_day_eq_inport _ ship pm acc1 d hstat,
      process_day_eq_inport st ship pm acc2 d hstat]
    simp only []
    have hpoolaf : (_primary_pool (day_availability { st with prefer := P } d) W_AF pm true).map
        scrubEntry = (_primary_pool (day_availability st d) W_AF pm true).map scrubEntry :=
      primary_pool_scrub _ _ W_AF pm true (day_avail_scrub st P d)
    have hwdo := filter_scrub (fun p => DUTY_WEEKDAY_ONLY.contains (stripStr p.duty))
      (fun p => rfl) _ _ hpoolaf
    have hregular := filter_scrub (fun p => !(DUTY_WEEKDAY_ONLY.contains (stripStr p.duty)))
      (fun p => rfl) _ _ hpoolaf
    have hpick : (pick_af { st with prefer := P } d acc1.2 []
        ((_primary_pool (day_availability { st with prefer := P } d) W_AF pm true).filter
          (fun p => !(DUTY_WEEKDAY_ONLY.contains (stripStr p.duty))))
        ((_primary_pool (day_availability { st with prefer := P } d) W_AF pm true).filter
          (fun p => DUTY_WEEKDAY_ONLY.contains (stripStr p.duty)))).map scrubEntry
      = (pick_af st d acc2.2 []
        ((_primary_pool (day_availability st d) W_AF pm true).filter
          (fun p => !(DUTY_WEEKDAY_ONLY.contains (stripStr p.duty))))
        ((_primary_pool (day_availability st d) W_AF pm true).filter
          (fun p => DUTY_WEEKDAY_ONLY.contains (stripStr p.duty)))).map scrubEntry := by
      rw [hc]
      exact pick_af_scrub st P d acc2.2 [] _ _ _ _ hregular hwdo
    have hstep : ∀ (s1 s2 : Grid × Counters × List String),
        (scrubGrid s1.1 = scrubGrid s2.1 ∧ s1.2.1 = s2.2.1 ∧ s1.2.2 = s2.2.2) →
        ∀ a : String,
        (scrubGrid ((step_secondary { st with prefer := P } d
            (day_availability { st with prefer := P } d) pm s1 a).1)
          = scrubGrid ((step_secondary st d (day_availability st d) pm s2 a).1) ∧
        ((step_secondary { st with prefer := P } d
            (day_availability { st with prefer := P } d) pm s1 a).2.1
          = (step_secondary st d (day_availability st d) pm s2 a).2.1) ∧
        ((step_secondary { st with prefer := P } d
            (day_availability { st with prefer := P } d) pm s1 a).2.2
          = (step_secondary st d (day_availability st d) pm s2 a).2.2)) := by
      intro s1 s2 hrel a
      exact step_secondary_scrub st P d pm s1 s2 a hrel.1 hrel.2.1 hrel.2.2
    have hfold := foldl_rel
      (fun s1 s2 : Grid × Counters × List String =>
        scrubGrid s1.1 = scrubGrid s2.1 ∧ s1.2.1 = s2.2.1 ∧ s1.2.2 = s2.2.2)
      (step_secondary { st with prefer := P } d
        (day_availability { st with prefer := P } d) pm)
      (step_secondary st d (day_availability st d) pm)
      SECONDARY_WATCHES
      (fun s1 s2 a hrel => hstep s1 s2 hrel a)
    rcases option_scrub_cases hpick with ⟨h1, h2⟩ | ⟨p1, p2, h1, h2, hp⟩
    · have hinit : scrubGrid (setGrid acc1.1 W_AF d (slotOfPick none))
          = scrubGrid (setGrid acc2.1 W_AF d (slotOfPick none)) := by
        rw [scrubGrid_setGrid, scrubGrid_setGrid, hg]
      rw [h1, h2]
      have := hfold (setGrid acc1.1 W_AF d (slotOfPick none), acc1.2, [])
        (setGrid acc2.1 W_AF d (slotOfPick none), acc2.2, []) ⟨hinit, hc, rfl⟩
      exact ⟨this.1, this.2.1⟩
    · have hinit : scrubGrid (setGrid acc1.1 W_AF d (slotOfPick (some p1)))
          = scrubGrid (setGrid acc2.1 W_AF d (slotOfPick (some p2))) := by
        rw [scrubGrid_setGrid, scrubGrid_setGrid, hg,
          slotOfPick_scrub (show (some p1).map scrubEntry = (some p2).map scrubEntry by
            simp [hp])]
      have hrec : recordAssignment { st with prefer := P } acc1.2 p1 W_AF d
          = recordAssignment st acc2.2 p2 W_AF d := by
        rw [hc]
        exact recordAssignment_scrub st P acc2.2 hp W_AF d
      obtain ⟨hreg, -, -, -, -⟩ := scrub_eq_fields hp
      rw [h1, h2]
      have := hfold (setGrid acc1.1 W_AF d (slotOfPick (some p1)),
          recordAssignment { st with prefer := P } acc1.2 p1 W_AF d, [p1.registry_id])
        (setGrid acc2.1 W_AF d (slotOfPick (some p2)),
          recordAssignment st acc2.2 p2 W_AF d, [p2.registry_id])
        ⟨hinit, hrec, by rw [hreg]⟩
      exact ⟨this.1, this.2.1⟩

/-- C10 (amended): preference records never influence scheduling. Two runs of
`make_month_schedule_all` whose inputs differ only in the preference file
produce the same date list, the same assignment ledger, and watch grids that
agree once the `preferred` display flag is erased from the stored person
snapshots (the flag itself does differ, per the counterexample). -/
theorem claim_C10_preference_noninterference (st : SchedState) (P : List (Nat × String)) :
    (make_month_schedule_all { st with prefer := P }).dates
      = (make_month_schedule_all st).dates ∧
    (make_month_schedule_all { st with prefer := P }).counters
      = (make_month_schedule_all st).counters ∧
    scrubGrid (make_month_schedule_all { st with prefer := P }).by_watch
      = scrubGrid (make_month_schedule_all st).by_watch := by
  unfold make_month_schedule_all
  simp only []
  rw [show _load_people_map { st with prefer := P } = _load_people_map st from rfl]
  by_cases he : (_load_people_map st).isEmpty
  · rw [if_pos he, if_pos he]
    exact ⟨rfl, rfl, rfl⟩
  · rw [if_neg he, if_neg he]
    cases hs : st.ship_status with
    | none => exact ⟨rfl, rfl, rfl⟩
    | some shipRows =>
      simp only []
      rw [← hs]
      have hfold := foldl_rel
        (fun a1 a2 : Grid × Counters => scrubGrid a1.1 = scrubGrid a2.1 ∧ a1.2 = a2.2)
        (process_day { st with prefer := P } shipRows (_load_people_map st))
        (process_day st shipRows (_load_people_map st))
        (sortedBy natLeB (shipRows.map (fun r => r.1)))
        (fun a1 a2 d h => process_day_scrub st P shipRows (_load_people_map st) a1 a2 d h.1 h.2)
        (WATCH_TYPES.map (fun w => (w, [])), [])
        (WATCH_TYPES.map (fun w => (w, [])), []) ⟨rfl, rfl⟩
      exact ⟨trivial, hfold.2, hfold.1⟩
